import Mathlib

/-!
Verification of the quota-gated extraction pipeline of a Telegram
receipt-ingestion bot.  The definitions below are shallow embeddings of
`src/app_with_database.py`, `src/database/crud.py` and
`src/database/models.py`: Python strings become `List Char`, SQLAlchemy
rows become structures, and the database session becomes explicit state
passing (a query returns its result and the unchanged store; an insert
returns the store with the new row appended).
-/

/-! ### Python string primitives -/

abbrev Str := List Char

def isWsC (c : Char) : Bool := c = ' ' || c = '\n' || c = '\t' || c = '\r'

def btick : Char := Char.ofNat 96

/-- Python `str.find(ch)`: index of the first occurrence, `none` for `-1`. -/
def findCh : Str → Char → Option Nat
  | [], _ => none
  | c :: r, t => if c = t then some 0 else (findCh r t).map (· + 1)

/-- Python `str.rfind(ch)`: index of the last occurrence, `none` for `-1`. -/
def rfindCh (s : Str) (t : Char) : Option Nat :=
  (findCh s.reverse t).map (fun i => s.length - 1 - i)

/-- Python slice `s[a:b]` for `0 ≤ a ≤ b`. -/
def pySlice (s : Str) (a b : Nat) : Str := (s.drop a).take (b - a)

/-- Python `str.split("\n")`. -/
def splitNl : Str → List Str
  | [] => [[]]
  | c :: r =>
    match splitNl r with
    | [] => [[]]
    | l :: ls => if c = '\n' then [] :: l :: ls else (c :: l) :: ls

/-- Python `"\n".join(lines)`. -/
def joinNl : List Str → Str
  | [] => []
  | [l] => l
  | l :: ls => l ++ '\n' :: joinNl ls

/-- Python `str.strip()`. -/
def stripS (s : Str) : Str :=
  ((s.dropWhile isWsC).reverse.dropWhile isWsC).reverse

/-- Python `str.replace(pat, rep)`: left-to-right, non-overlapping.
Fuel-based so the kernel can evaluate it; `replAll` supplies enough fuel
and `replAll_cons` recovers the natural unfolding. -/
def replAllF (pat rep : Str) : Nat → Str → Str
  | 0, s => s
  | _, [] => []
  | f + 1, c :: rest =>
    if pat ≠ [] ∧ pat.isPrefixOf (c :: rest) then
      rep ++ replAllF pat rep f ((c :: rest).drop pat.length)
    else
      c :: replAllF pat rep f rest

def replAll (pat rep : Str) (s : Str) : Str := replAllF pat rep s.length s

theorem replAllF_congr (pat rep : Str) : ∀ f f' s, s.length ≤ f → s.length ≤ f' →
    replAllF pat rep f s = replAllF pat rep f' s := by
  intro f
  induction f with
  | zero =>
    intro f' s hf _
    have : s = [] := List.eq_nil_of_length_eq_zero (by omega)
    subst this
    cases f' <;> rfl
  | succ f ih =>
    intro f' s hf hf'
    cases s with
    | nil => cases f' <;> rfl
    | cons c rest =>
      cases f' with
      | zero => simp at hf'
      | succ f' =>
        show replAllF pat rep (f + 1) (c :: rest) = replAllF pat rep (f' + 1) (c :: rest)
        rw [replAllF, replAllF]
        split_ifs with h
        · have hp : 0 < pat.length := List.length_pos.mpr h.1
          have hd : ((c :: rest).drop pat.length).length ≤ f := by
            simp only [List.length_drop, List.length_cons]
            simp only [List.length_cons] at hf
            omega
          have hd' : ((c :: rest).drop pat.length).length ≤ f' := by
            simp only [List.length_drop, List.length_cons]
            simp only [List.length_cons] at hf'
            omega
          rw [ih f' _ hd hd']
        · have hr : rest.length ≤ f := by simp at hf; omega
          have hr' : rest.length ≤ f' := by simp at hf'; omega
          rw [ih f' rest hr hr']

theorem replAll_cons (pat rep : Str) (c : Char) (rest : Str) :
    replAll pat rep (c :: rest)
      = if pat ≠ [] ∧ pat.isPrefixOf (c :: rest) then
          rep ++ replAll pat rep ((c :: rest).drop pat.length)
        else c :: replAll pat rep rest := by
  show replAllF pat rep (rest.length + 1) (c :: rest) = _
  rw [replAllF]
  split_ifs with h
  · have hp : 0 < pat.length := List.length_pos.mpr h.1
    unfold replAll
    rw [replAllF_congr pat rep rest.length _ _ (by simp; omega) (le_refl _)]
  · unfold replAll
    rw [replAllF_congr pat rep rest.length _ _ (le_refl _) (le_refl _)]

/-- The trailing-comma cleanup of `convert_image_to_data` (lines 163-165),
in the source's replacement order. -/
def cleanTrailingCommas (s : Str) : Str :=
  replAll [',', ']'] [']']
    (replAll [',', '}'] ['}']
      (replAll [',', '\n', ']'] ['\n', ']']
        (replAll [',', '\n', '}'] ['\n', '}'] s)))

/-! ### JSON values and a model of `json.loads` -/

inductive JVal where
  | jstr : Str → JVal
  | jnum : Nat → JVal
  | jarr : List JVal → JVal
  | jobj : List (Str × JVal) → JVal
deriving Repr

mutual

def JVal.beq : JVal → JVal → Bool
  | .jstr a, .jstr b => a == b
  | .jnum a, .jnum b => a == b
  | .jarr a, .jarr b => JVal.beqList a b
  | .jobj a, .jobj b => JVal.beqPairs a b
  | _, _ => false

def JVal.beqList : List JVal → List JVal → Bool
  | [], [] => true
  | a :: as, b :: bs => JVal.beq a b && JVal.beqList as bs
  | _, _ => false

def JVal.beqPairs : List (Str × JVal) → List (Str × JVal) → Bool
  | [], [] => true
  | (k1, v1) :: as, (k2, v2) :: bs => k1 == k2 && JVal.beq v1 v2 && JVal.beqPairs as bs
  | _, _ => false

end

mutual

theorem JVal.beq_iff : ∀ a b : JVal, JVal.beq a b = true ↔ a = b
  | .jstr a, .jstr b => by simp [JVal.beq]
  | .jnum a, .jnum b => by simp [JVal.beq]
  | .jarr a, .jarr b => by simp [JVal.beq, JVal.beqList_iff a b]
  | .jobj a, .jobj b => by simp [JVal.beq, JVal.beqPairs_iff a b]
  | .jstr _, .jnum _ => by simp [JVal.beq]
  | .jstr _, .jarr _ => by simp [JVal.beq]
  | .jstr _, .jobj _ => by simp [JVal.beq]
  | .jnum _, .jstr _ => by simp [JVal.beq]
  | .jnum _, .jarr _ => by simp [JVal.beq]
  | .jnum _, .jobj _ => by simp [JVal.beq]
  | .jarr _, .jstr _ => by simp [JVal.beq]
  | .jarr _, .jnum _ => by simp [JVal.beq]
  | .jarr _, .jobj _ => by simp [JVal.beq]
  | .jobj _, .jstr _ => by simp [JVal.beq]
  | .jobj _, .jnum _ => by simp [JVal.beq]
  | .jobj _, .jarr _ => by simp [JVal.beq]

theorem JVal.beqList_iff : ∀ a b : List JVal, JVal.beqList a b = true ↔ a = b
  | [], [] => by simp [JVal.beqList]
  | a :: as, b :: bs => by
    simp [JVal.beqList, JVal.beq_iff a b, JVal.beqList_iff as bs]
  | [], _ :: _ => by simp [JVal.beqList]
  | _ :: _, [] => by simp [JVal.beqList]

theorem JVal.beqPairs_iff : ∀ a b : List (Str × JVal), JVal.beqPairs a b = true ↔ a = b
  | [], [] => by simp [JVal.beqPairs]
  | (k1, v1) :: as, (k2, v2) :: bs => by
    simp [JVal.beqPairs, JVal.beq_iff v1 v2, JVal.beqPairs_iff as bs, and_assoc]
  | [], _ :: _ => by simp [JVal.beqPairs]
  | _ :: _, [] => by simp [JVal.beqPairs]

end

instance : DecidableEq JVal := fun a b => decidable_of_iff _ (JVal.beq_iff a b)

def isDigitCh (c : Char) : Bool := 48 ≤ c.toNat && c.toNat ≤ 57

def digitVal (c : Char) : Nat := c.toNat - 48

/-- Read a decimal number, accumulator style. -/
def parseNatAux : Str → Nat → Nat × Str
  | [], acc => (acc, [])
  | c :: r, acc => if isDigitCh c then parseNatAux r (10 * acc + digitVal c) else (acc, c :: r)

/-- Body of a JSON string literal, after the opening quote; handles the
escapes a canonical dump produces. -/
def parseStrBody : Str → Option (Str × Str)
  | [] => none
  | c :: rest =>
    if c = '"' then some ([], rest)
    else if c = '\\' then
      match rest with
      | [] => none
      | e :: rest2 =>
        if e = '"' ∨ e = '\\' then
          (parseStrBody rest2).map (fun pr => (e :: pr.1, pr.2))
        else none
    else (parseStrBody rest).map (fun pr => (c :: pr.1, pr.2))

mutual

/-- A JSON value and the remaining input. -/
def parseVal : Nat → Str → Option (JVal × Str)
  | 0, _ => none
  | fuel + 1, s =>
    match s.dropWhile isWsC with
    | [] => none
    | c :: r =>
      if c = '"' then (parseStrBody r).map (fun pr => (JVal.jstr pr.1, pr.2))
      else if c = '[' then
        let r1 := r.dropWhile isWsC
        if r1.head? = some ']' then some (JVal.jarr [], r1.tail)
        else (parseElems1 fuel r1).map (fun pr => (JVal.jarr pr.1, pr.2))
      else if c = '{' then
        let r1 := r.dropWhile isWsC
        if r1.head? = some '}' then some (JVal.jobj [], r1.tail)
        else (parseMembers1 fuel r1).map (fun pr => (JVal.jobj pr.1, pr.2))
      else if isDigitCh c then
        let pr := parseNatAux (c :: r) 0
        some (JVal.jnum pr.1, pr.2)
      else none

/-- One or more array elements, then the closing bracket. -/
def parseElems1 : Nat → Str → Option (List JVal × Str)
  | 0, _ => none
  | fuel + 1, s =>
    match parseVal fuel s with
    | none => none
    | some (v, r1) =>
      let r2 := r1.dropWhile isWsC
      if r2.head? = some ',' then
        (parseElems1 fuel (r2.tail.dropWhile isWsC)).map (fun pr => (v :: pr.1, pr.2))
      else if r2.head? = some ']' then some ([v], r2.tail)
      else none

/-- One or more object members, then the closing brace. -/
def parseMembers1 : Nat → Str → Option (List (Str × JVal) × Str)
  | 0, _ => none
  | fuel + 1, s =>
    if s.head? = some '"' then
      match parseStrBody s.tail with
      | none => none
      | some (k, r1) =>
        let r2 := r1.dropWhile isWsC
        if r2.head? = some ':' then
          match parseVal fuel r2.tail with
          | none => none
          | some (v, r3) =>
            let r4 := r3.dropWhile isWsC
            if r4.head? = some ',' then
              (parseMembers1 fuel (r4.tail.dropWhile isWsC)).map
                (fun pr => ((k, v) :: pr.1, pr.2))
            else if r4.head? = some '}' then some ([(k, v)], r4.tail)
            else none
        else none
    else none

end

/-- Model of `json.loads`: one value, then only whitespace may remain. -/
def parseJson (s : Str) : Option JVal :=
  match parseVal (2 * s.length + 2) s with
  | some (v, rest) => if rest.dropWhile isWsC = [] then some v else none
  | none => none

/-! ### The JSON-recovery logic of `convert_image_to_data` (lines 132-183),
`convert_pdf_page_to_data` (lines 292-329) and `convert_text_to_data`
(lines 382-427). -/

def fjTag : Str := [btick, btick, btick, 'j', 's', 'o', 'n']

def tick3 : Str := [btick, btick, btick]

/-- The `else` branch: slice from the earliest `[`/`{` to the latest `]`/`}`. -/
def sliceBrackets (c0 : Str) : Str :=
  let si := min ((findCh c0 '[').getD c0.length) ((findCh c0 '{').getD c0.length)
  if si < c0.length then
    let ei := max ((rfindCh c0 ']').getD 0) ((rfindCh c0 '}').getD 0)
    if 0 < ei then pySlice c0 si (ei + 1) else c0
  else c0

/-- Markdown-fence / stray-prose stripping, image and PDF variant. -/
def stripFences (c0 : Str) : Str :=
  if fjTag.isPrefixOf c0 then
    match findCh c0 '{', rfindCh c0 '}' with
    | some si, some ei => pySlice c0 si (ei + 1)
    | _, _ => c0
  else if tick3.isPrefixOf c0 ∧ tick3.isSuffixOf c0 then
    let lines := splitNl c0
    if 2 < lines.length then joinNl ((lines.drop 1).dropLast) else c0
  else sliceBrackets c0

/-- Markdown-fence stripping, text variant: inside a ```json fence it tries
`[`…`]` first and falls back to `{`…`}`. -/
def stripFencesText (c0 : Str) : Str :=
  if fjTag.isPrefixOf c0 then
    match findCh c0 '[', rfindCh c0 ']' with
    | some si, some ei => pySlice c0 si (ei + 1)
    | _, _ =>
      match findCh c0 '{', rfindCh c0 '}' with
      | some si, some ei => pySlice c0 si (ei + 1)
      | _, _ => c0
  else if tick3.isPrefixOf c0 ∧ tick3.isSuffixOf c0 then
    let lines := splitNl c0
    if 2 < lines.length then joinNl ((lines.drop 1).dropLast) else c0
  else sliceBrackets c0

/-- Lines 162-179: strip, remove trailing commas, parse; on failure retry
once with a bare object wrapped in `[`…`]`; wrap a non-array result in a
one-element list. -/
def parseCleaned (c1 : Str) : Option (List JVal) :=
  let c2 := cleanTrailingCommas (stripS c1)
  match parseJson c2 with
  | some (.jarr l) => some l
  | some v => some [v]
  | none =>
    let c3 :=
      if (stripS c2).head? = some '{' ∧ ¬ (stripS c2).head? = some '[' then
        '[' :: c2 ++ [']']
      else c2
    match parseJson c3 with
    | some (.jarr l) => some l
    | some v => some [v]
    | none => none

def extract_json_image (content : Str) : Option (List JVal) :=
  parseCleaned (stripFences content)

def extract_json_text (content : Str) : Option (List JVal) :=
  parseCleaned (stripFencesText content)

/-- Outcome of the HTTP call to the extraction backend: a timeout, some
other raised exception, or a response with a status code and the content
of `choices[0].message.content` (`none` when absent or null). -/
inductive ApiResult where
  | timeout
  | exn
  | resp (status : Nat) (content : Option Str)
deriving DecidableEq, Repr

/-- `convert_image_to_data`: `None` on timeout, exception, non-200 status,
missing content, unparseable content, or an empty parsed array. -/
def convert_image_to_data (r : ApiResult) : Option (List JVal) :=
  match r with
  | .timeout => none
  | .exn => none
  | .resp status content =>
    if status = 200 then
      match content with
      | none => none
      | some c =>
        match extract_json_image c with
        | some l => if 0 < l.length then some l else none
        | none => none
    else none

/-- `convert_pdf_page_to_data`, lines 287-340: same recovery logic; the
final `return data if data else None` maps an empty list to `None`. -/
def convert_pdf_page_to_data (r : ApiResult) : Option (List JVal) :=
  match r with
  | .timeout => none
  | .exn => none
  | .resp status content =>
    if status = 200 then
      match content with
      | none => none
      | some c =>
        if c = [] then none
        else
          match extract_json_image c with
          | some l => if l = [] then none else some l
          | none => none
    else none

/-- `convert_text_to_data`, lines 343-442. -/
def convert_text_to_data (r : ApiResult) : Option (List JVal) :=
  match r with
  | .timeout => none
  | .exn => none
  | .resp status content =>
    if status = 200 then
      match content with
      | none => none
      | some c =>
        match extract_json_text c with
        | some l => if 0 < l.length then some l else none
        | none => none
    else none

/-! ### Database rows (`src/database/models.py`) -/

structure TierRow where
  name : String
  daily_limit : Int
  price_monthly : Nat
deriving DecidableEq, Repr

/-- `DEFAULT_TIERS` from `models.py`. -/
def DEFAULT_TIERS : List TierRow :=
  [⟨"free", 5, 0⟩, ⟨"silver", 50, 0⟩, ⟨"gold", 150, 0⟩, ⟨"platinum", 300, 0⟩, ⟨"admin", -1, 0⟩]

structure User where
  id : Nat
  telegram_id : Int
  username : Option String
  first_name : Option String
  last_name : Option String
  tier : String
  google_sheet_id : Option String
deriving DecidableEq, Repr

/-- The fallback limits dictionary of `User.daily_limit` in `models.py`. -/
def fallback_limits (t : String) : Int :=
  if t = "free" then 5
  else if t = "silver" then 50
  else if t = "gold" then 150
  else if t = "platinum" then 300
  else if t = "admin" then -1
  else 5

/-- `User.daily_limit`: the tier row's limit, or the fallback table. -/
def User.daily_limit (tiers : List TierRow) (u : User) : Int :=
  match tiers.find? (fun t => t.name == u.tier) with
  | some t => t.daily_limit
  | none => fallback_limits u.tier

structure ActivityLog where
  user_id : Nat
  timestamp : Int
  file_type : String
  processing_status : String
  items_extracted : Nat
  error_message : Option String
  file_size_bytes : Option Nat
deriving DecidableEq, Repr

/-! ### CRUD operations (`src/database/crud.py`).  Time is modelled in
minutes: a day is 1440, the timezone is a fixed offset (Asia/Jakarta has
no DST), and timestamps are stored in UTC. -/

structure QuotaStatus where
  can_proceed : Bool
  used_today : Nat
  daily_limit : Int
  tier : String
deriving DecidableEq, Repr

/-- `QuotaStatus.remaining` (crud.py lines 33-38). -/
def QuotaStatus.remaining (q : QuotaStatus) : Int :=
  if q.daily_limit = -1 then 999999 else max 0 (q.daily_limit - (q.used_today : Int))

/-- `QuotaStatus.is_unlimited` (crud.py lines 40-43). -/
def QuotaStatus.is_unlimited (q : QuotaStatus) : Bool :=
  q.daily_limit == -1

/-- Midnight of the current local day, converted back to UTC: the value of
`today_start_utc` computed in `get_today_usage` (crud.py lines 338-343). -/
def local_midnight_utc (nowUtc tzOff : Int) : Int :=
  let nowLocal := nowUtc + tzOff
  nowLocal - nowLocal % 1440 - tzOff

/-- `get_today_usage`: count of "success" activity rows of this user with
timestamp at or after local midnight (crud.py lines 326-353). -/
def get_today_usage (db : List ActivityLog) (uid : Nat) (nowUtc tzOff : Int) : Nat :=
  List.countP (fun l =>
    l.user_id == uid
      && decide (local_midnight_utc nowUtc tzOff ≤ l.timestamp)
      && l.processing_status == "success") db

/-- `get_today_usage` with the session threaded: a `SELECT count(...)`
returns its result and leaves the store unchanged. -/
def get_today_usage_state (db : List ActivityLog) (uid : Nat) (nowUtc tzOff : Int) :
    Nat × List ActivityLog :=
  (get_today_usage db uid nowUtc tzOff, db)

/-- `check_quota` (crud.py lines 356-387). -/
def check_quota (tiers : List TierRow) (db : List ActivityLog) (u : User)
    (nowUtc tzOff : Int) : QuotaStatus :=
  let dl := u.daily_limit tiers
  if dl = -1 then
    { can_proceed := true
      used_today := get_today_usage db u.id nowUtc tzOff
      daily_limit := -1
      tier := u.tier }
  else
    let used := get_today_usage db u.id nowUtc tzOff
    { can_proceed := decide ((used : Int) < dl)
      used_today := used
      daily_limit := dl
      tier := u.tier }

/-- `check_quota` with the session threaded. -/
def check_quota_state (tiers : List TierRow) (db : List ActivityLog) (u : User)
    (nowUtc tzOff : Int) : QuotaStatus × List ActivityLog :=
  let dl := u.daily_limit tiers
  if dl = -1 then
    let pr := get_today_usage_state db u.id nowUtc tzOff
    ({ can_proceed := true, used_today := pr.1, daily_limit := -1, tier := u.tier }, pr.2)
  else
    let pr := get_today_usage_state db u.id nowUtc tzOff
    ({ can_proceed := decide ((pr.1 : Int) < dl), used_today := pr.1, daily_limit := dl,
       tier := u.tier }, pr.2)

/-- `log_activity` (crud.py lines 289-323): append one audit row. -/
def log_activity (db : List ActivityLog) (uid : Nat) (ftype : String) (nowUtc : Int)
    (status : String) (fsize : Option Nat) (items : Nat) (emsg : Option String) :
    ActivityLog × List ActivityLog :=
  let l : ActivityLog := ⟨uid, nowUtc, ftype, status, items, emsg, fsize⟩
  (l, db ++ [l])

/-! ### `get_or_create_user` (crud.py lines 127-180) -/

def get_user_by_telegram_id (us : List User) (tid : Int) : Option User :=
  us.find? (fun u => u.telegram_id == tid)

/-- The ORM identity map: the looked-up row is mutated in place. -/
def update_found : List User → Int → User → List User
  | [], _, _ => []
  | u :: r, tid, u1 => if u.telegram_id == tid then u1 :: r else u :: update_found r tid u1

/-- The name refreshes applied to an existing user (crud.py lines 155-161):
each field is overwritten when the new value is truthy and differs. -/
def update_user_names (u : User) (username first last : Option String) : User :=
  let u1 := match username with
    | some n => if n ≠ "" ∧ u.username ≠ some n then { u with username := some n } else u
    | none => u
  let u2 := match first with
    | some n => if n ≠ "" ∧ u1.first_name ≠ some n then { u1 with first_name := some n } else u1
    | none => u1
  match last with
    | some n => if n ≠ "" ∧ u2.last_name ≠ some n then { u2 with last_name := some n } else u2
    | none => u2

/-- The in-place updates applied to an existing user: refresh names if
changed, auto-upgrade to admin when listed (crud.py lines 154-166). -/
def apply_user_updates (u : User) (tid : Int) (username first last : Option String)
    (adminIds : List Int) : User :=
  let u3 := update_user_names u username first last
  if tid ∈ adminIds ∧ u3.tier ≠ "admin" then { u3 with tier := "admin" } else u3

/-- `create_user` (crud.py lines 89-124); the flush assigns the next id. -/
def create_user (us : List User) (tid : Int) (username first last : Option String)
    (tier : String) : User × List User :=
  let u : User := ⟨us.length + 1, tid, username, first, last, tier, none⟩
  (u, us ++ [u])

/-- `get_or_create_user` (crud.py lines 127-180). -/
def get_or_create_user (us : List User) (tid : Int) (username first last : Option String)
    (adminIds : List Int) : (User × Bool) × List User :=
  match get_user_by_telegram_id us tid with
  | some u0 =>
    let u1 := apply_user_updates u0 tid username first last adminIds
    ((u1, false), update_found us tid u1)
  | none =>
    let tier := if tid ∈ adminIds then "admin" else "free"
    let cu := create_user us tid username first last tier
    ((cu.1, true), cu.2)

/-! ### The PDF branch of `handle_media` (`app_with_database.py`
lines 1377-1581) -/

/-- The user-facing replies of the PDF branch, keeping only the data each
message interpolates. -/
inductive Reply where
  | quotaExceeded (used : Nat) (lim : Int)
  | invalidPdf
  | summary
deriving DecidableEq, Repr

/-- The audit row written for one attempted page (lines 1453-1482):
success rows carry the item count, failure rows a populated message. -/
def page_log (uid fileSize pageCount : Nat) (nowUtc : Int) (i : Nat) :
    Option (List JVal) → ActivityLog
  | some (x :: xs) =>
    ⟨uid, nowUtc, "pdf_page", "success", (x :: xs).length, none, some (fileSize / pageCount)⟩
  | _ =>
    ⟨uid, nowUtc, "pdf_page", "failed", 0,
      some ("Failed to extract data from page " ++ toString (i + 1)),
      some (fileSize / pageCount)⟩

structure LoopOut where
  attempted : List Nat
  records : List JVal
  processed : Nat
  failed : Nat
  db : List ActivityLog
deriving DecidableEq, Repr

/-- `for page_num in range(pages_to_process)` (lines 1448-1482): attempt
each page in order; a falsy result (None or an empty list) counts as a
failure and the loop continues. -/
def pdf_pages_loop (pr : Nat → Option (List JVal)) (uid fileSize pageCount : Nat)
    (nowUtc : Int) : Nat → Nat → List ActivityLog → LoopOut
  | _, 0, db => ⟨[], [], 0, 0, db⟩
  | i, k + 1, db =>
    let res := pr i
    let db1 := db ++ [page_log uid fileSize pageCount nowUtc i res]
    let rest := pdf_pages_loop pr uid fileSize pageCount nowUtc (i + 1) k db1
    match res with
    | some (x :: xs) =>
      ⟨i :: rest.attempted, (x :: xs) ++ rest.records, rest.processed + 1, rest.failed, rest.db⟩
    | _ =>
      ⟨i :: rest.attempted, rest.records, rest.processed, rest.failed + 1, rest.db⟩

structure PdfRun where
  rejected : Bool
  attempted : List Nat
  pagesToProcess : Nat
  pagesSkipped : Nat
  pagesProcessed : Nat
  pagesFailed : Nat
  records : List JVal
  db : List ActivityLog
  reply : Reply
deriving DecidableEq, Repr

/-- Process the allowed page range and aggregate (lines 1443-1491). -/
def pdf_process (pr : Nat → Option (List JVal)) (uid fileSize pageCount : Nat)
    (nowUtc : Int) (db : List ActivityLog) (ptp : Nat) : PdfRun :=
  let out := pdf_pages_loop pr uid fileSize pageCount nowUtc 0 ptp db
  ⟨false, out.attempted, ptp, pageCount - ptp, out.processed, out.failed, out.records,
    out.db, .summary⟩

/-- The PDF branch of `handle_media`: reject unreadable PDFs, check the
quota, reject outright when no quota remains (one `limit_exceeded` row for
the whole batch), clamp the page range when quota is short, then process
the allowed pages (lines 1380-1491). -/
def handle_media_pdf (tiers : List TierRow) (db : List ActivityLog) (u : User)
    (nowUtc tzOff : Int) (pageCount fileSize : Nat)
    (pr : Nat → Option (List JVal)) : PdfRun :=
  if pageCount = 0 then
    ⟨true, [], 0, 0, 0, 0, [], db, .invalidPdf⟩
  else
    let q := check_quota tiers db u nowUtc tzOff
    if q.is_unlimited then
      pdf_process pr u.id fileSize pageCount nowUtc db pageCount
    else
      let remaining_quota : Int := q.daily_limit - (q.used_today : Int)
      if remaining_quota ≤ 0 then
        let db1 := (log_activity db u.id "pdf" nowUtc "limit_exceeded" none 0
          (some ("Daily quota exceeded (PDF has " ++ toString pageCount ++ " pages)"))).2
        ⟨true, [], 0, 0, 0, 0, [], db1, .quotaExceeded q.used_today q.daily_limit⟩
      else
        let ptp : Nat :=
          if remaining_quota < (pageCount : Int) then remaining_quota.toNat else pageCount
        pdf_process pr u.id fileSize pageCount nowUtc db ptp

/-! ### The fixed 11-field output row (`handle_message` lines 1141-1153,
`handle_media` lines 1497-1509) -/

/-- Python `dict.get(key, default)`. -/
def jget (o : List (Str × JVal)) (k : Str) (d : JVal) : JVal :=
  match o.find? (fun p => p.1 == k) with
  | some p => p.2
  | none => d

def kWaktu : Str := ['w', 'a', 'k', 't', 'u']
def kPenjual : Str := ['p', 'e', 'n', 'j', 'u', 'a', 'l']
def kBarang : Str := ['b', 'a', 'r', 'a', 'n', 'g']
def kHarga : Str := ['h', 'a', 'r', 'g', 'a']
def kJumlah : Str := ['j', 'u', 'm', 'l', 'a', 'h']
def kService : Str := ['s', 'e', 'r', 'v', 'i', 'c', 'e']
def kPajak : Str := ['p', 'a', 'j', 'a', 'k']
def kPpn : Str := ['p', 'p', 'n']
def kSubtotal : Str := ['s', 'u', 'b', 't', 'o', 't', 'a', 'l']

/-- `row_data`: the positional output row.  String fields default to the
empty string, numeric fields to 0. -/
def row_data (invoice : List (Str × JVal)) (userId : Str) (unixTs : Nat) : List JVal :=
  [jget invoice kWaktu (.jstr []),
   jget invoice kPenjual (.jstr []),
   jget invoice kBarang (.jstr []),
   jget invoice kHarga (.jnum 0),
   jget invoice kJumlah (.jnum 0),
   jget invoice kService (.jnum 0),
   jget invoice kPajak (.jnum 0),
   jget invoice kPpn (.jnum 0),
   jget invoice kSubtotal (.jnum 0),
   .jstr userId,
   .jnum unixTs]

/-! ### Canonical JSON serialization of extracted records.

The model was asked for a JSON array of flat receipt records (string and
number fields).  `renderRecArr` is the canonical single-line dump of such
an array (Python `json.dumps` with its default `", "`/`": "` separators),
used to state the round-trip property of the recovery logic. -/

inductive FVal where
  | fstr : Str → FVal
  | fnum : Nat → FVal
deriving DecidableEq, Repr

abbrev FRec := List (Str × FVal)

def fvalToJ : FVal → JVal
  | .fstr s => .jstr s
  | .fnum n => .jnum n

def recToJ (o : FRec) : JVal := .jobj (o.map (fun p => (p.1, fvalToJ p.2)))

def escStr : Str → Str
  | [] => []
  | c :: r => if c = '"' ∨ c = '\\' then '\\' :: c :: escStr r else c :: escStr r

def renderStrLit (s : Str) : Str := '"' :: escStr s ++ ['"']

def digitCh : Nat → Char
  | 0 => '0' | 1 => '1' | 2 => '2' | 3 => '3' | 4 => '4'
  | 5 => '5' | 6 => '6' | 7 => '7' | 8 => '8' | 9 => '9'
  | _ + 10 => '0'

def renderNatF : Nat → Nat → Str
  | 0, _ => []
  | f + 1, n => if n < 10 then [digitCh n] else renderNatF f (n / 10) ++ [digitCh (n % 10)]

def renderNat (n : Nat) : Str := renderNatF (n + 1) n

theorem renderNatF_congr : ∀ n f f', n < f → n < f' → renderNatF f n = renderNatF f' n := by
  intro n
  induction n using Nat.strong_induction_on with
  | _ n ih =>
    intro f f' hf hf'
    cases f with
    | zero => omega
    | succ f =>
      cases f' with
      | zero => omega
      | succ f' =>
        rw [renderNatF, renderNatF]
        split_ifs with h
        · rfl
        · have hdiv : n / 10 < n := Nat.div_lt_self (by omega) (by omega)
          rw [ih (n / 10) hdiv f f' (by omega) (by omega)]

theorem renderNat_eq (n : Nat) :
    renderNat n = if n < 10 then [digitCh n] else renderNat (n / 10) ++ [digitCh (n % 10)] := by
  show renderNatF (n + 1) n = _
  rw [renderNatF]
  split_ifs with h
  · rfl
  · unfold renderNat
    rw [renderNatF_congr (n / 10) n (n / 10 + 1)
      (Nat.div_lt_self (by omega) (by omega)) (by omega)]

def renderFVal : FVal → Str
  | .fstr s => renderStrLit s
  | .fnum n => renderNat n

def renderPairF (p : Str × FVal) : Str := renderStrLit p.1 ++ ':' :: ' ' :: renderFVal p.2

def renderPairsF : FRec → Str
  | [] => []
  | [p] => renderPairF p
  | p :: q :: ps => renderPairF p ++ ',' :: ' ' :: renderPairsF (q :: ps)

def renderRec (o : FRec) : Str := '{' :: renderPairsF o ++ ['}']

def renderItemsF : List FRec → Str
  | [] => []
  | [o] => renderRec o
  | o :: p :: os => renderRec o ++ ',' :: ' ' :: renderItemsF (p :: os)

def renderRecArr (rs : List FRec) : Str := '[' :: renderItemsF rs ++ [']']

/-- A raw completion that wraps the JSON in a ```json fence. -/
def wrapJsonFence (r : Str) : Str := fjTag ++ '\n' :: r ++ '\n' :: tick3

/-- A raw completion that wraps the JSON in generic triple fences. -/
def wrapGenFence (r : Str) : Str := tick3 ++ '\n' :: r ++ '\n' :: tick3

/-- No `,` immediately followed by `]` or `}`: the substrings rewritten by
the trailing-comma cleanup. -/
def hazFreeB : Str → Bool
  | [] => true
  | [_] => true
  | a :: b :: r => !(a = ',' && (b = ']' || b = '}')) && hazFreeB (b :: r)

/-- Strings a canonical dump renders verbatim (no control characters, so
no `\n`/`\t`/`\u` escapes) and that the comma cleanup cannot corrupt. -/
def goodStrB (s : Str) : Bool := s.all (fun c => 32 ≤ c.toNat) && hazFreeB s

def goodFValB : FVal → Bool
  | .fstr s => goodStrB s
  | .fnum _ => true

def goodRecB (o : FRec) : Bool := o.all (fun p => goodStrB p.1 && goodFValB p.2)

def goodRecsB (rs : List FRec) : Bool := rs.all goodRecB

/-- Characters that must not occur in leading prose for the bracket-sniffing
slice to recover the array: brackets, braces and the fence backtick. -/
def proseSafe (pre : Str) : Bool :=
  pre.all (fun c => !(c = '[' || c = '{' || c = ']' || c = '}' || c = btick))

/-! ### Supporting lemmas for the PDF branch -/

theorem pdf_pages_loop_attempted (pr : Nat → Option (List JVal)) (uid fs pc : Nat)
    (nowUtc : Int) : ∀ k i db,
    (pdf_pages_loop pr uid fs pc nowUtc i k db).attempted = List.range' i k := by
  intro k
  induction k with
  | zero => intro i db; rfl
  | succ k ih =>
    intro i db
    rw [List.range'_succ]
    unfold pdf_pages_loop
    rcases pr i with _ | l
    · simpa using ih (i + 1) _
    · rcases l with _ | ⟨x, xs⟩
      · simpa using ih (i + 1) _
      · simpa using ih (i + 1) _

theorem pdf_pages_loop_db (pr : Nat → Option (List JVal)) (uid fs pc : Nat)
    (nowUtc : Int) : ∀ k i db,
    (pdf_pages_loop pr uid fs pc nowUtc i k db).db
      = db ++ (List.range' i k).map (fun j => page_log uid fs pc nowUtc j (pr j)) := by
  intro k
  induction k with
  | zero => intro i db; simp [pdf_pages_loop]
  | succ k ih =>
    intro i db
    rw [List.range'_succ]
    unfold pdf_pages_loop
    have hdb1 := ih (i + 1) (db ++ [page_log uid fs pc nowUtc i (pr i)])
    rcases hpr : pr i with _ | l
    · simp only [hpr] at hdb1 ⊢
      simp [hdb1, hpr]
    · rcases l with _ | ⟨x, xs⟩ <;>
      · simp only [hpr] at hdb1 ⊢
        simp [hdb1, hpr]

/-- Shape of a finished run: pages are attempted in ascending order and,
when any page was allowed, the log grows by exactly one row per page. -/
theorem handle_media_pdf_shape (tiers : List TierRow) (db : List ActivityLog) (u : User)
    (nowUtc tzOff : Int) (pageCount fileSize : Nat) (pr : Nat → Option (List JVal)) :
    (handle_media_pdf tiers db u nowUtc tzOff pageCount fileSize pr).attempted
        = List.range' 0 (handle_media_pdf tiers db u nowUtc tzOff pageCount fileSize pr).pagesToProcess
    ∧ ((handle_media_pdf tiers db u nowUtc tzOff pageCount fileSize pr).rejected = false →
        (handle_media_pdf tiers db u nowUtc tzOff pageCount fileSize pr).db
          = db ++ (List.range' 0
              (handle_media_pdf tiers db u nowUtc tzOff pageCount fileSize pr).pagesToProcess).map
              (fun j => page_log u.id fileSize pageCount nowUtc j (pr j))) := by
  simp only [handle_media_pdf]
  split
  · simp
  · split
    · simp [pdf_process, pdf_pages_loop_attempted, pdf_pages_loop_db]
    · split
      · simp
      · simp [pdf_process, pdf_pages_loop_attempted, pdf_pages_loop_db]

theorem handle_media_pdf_rejected_ptp (tiers : List TierRow) (db : List ActivityLog)
    (u : User) (nowUtc tzOff : Int) (pageCount fileSize : Nat)
    (pr : Nat → Option (List JVal)) :
    (handle_media_pdf tiers db u nowUtc tzOff pageCount fileSize pr).rejected = true →
    (handle_media_pdf tiers db u nowUtc tzOff pageCount fileSize pr).pagesToProcess = 0 := by
  simp only [handle_media_pdf]
  split
  · simp
  · split
    · simp [pdf_process]
    · split
      · simp
      · simp [pdf_process]

/-! ### Claim theorems: quota ledger -/

/-- C1: for a PDF of `P` pages and a finite daily limit with remaining
quota `R = daily_limit - used_today`, `0 < R < P`, the media handler
attempts extraction for exactly pages `0..R-1` in ascending order, never
touches a later page, and reports `pages_skipped = P - R`. -/
theorem c1_pdf_partial_grant (tiers : List TierRow) (db : List ActivityLog) (u : User)
    (nowUtc tzOff : Int) (pageCount fileSize : Nat) (pr : Nat → Option (List JVal))
    (R : Int)
    (hR : R = (check_quota tiers db u nowUtc tzOff).daily_limit
            - ((check_quota tiers db u nowUtc tzOff).used_today : Int))
    (hfin : (check_quota tiers db u nowUtc tzOff).daily_limit ≠ -1)
    (hpos : 0 < R) (hlt : R < (pageCount : Int)) :
    (handle_media_pdf tiers db u nowUtc tzOff pageCount fileSize pr).rejected = false ∧
    (handle_media_pdf tiers db u nowUtc tzOff pageCount fileSize pr).attempted
        = List.range R.toNat ∧
    (handle_media_pdf tiers db u nowUtc tzOff pageCount fileSize pr).pagesSkipped
        = pageCount - R.toNat := by
  have hpc : ¬ pageCount = 0 := by
    intro h
    rw [h] at hlt
    simp at hlt
    omega
  have hunl : (check_quota tiers db u nowUtc tzOff).is_unlimited = false := by
    simp [QuotaStatus.is_unlimited, hfin]
  simp only [handle_media_pdf, hunl]
  rw [if_neg hpc, if_neg (by simp), ← hR, if_neg (by omega : ¬ R ≤ 0), if_pos hlt]
  simp [pdf_process, pdf_pages_loop_attempted, List.range_eq_range']

def userFree : User := ⟨2, 555, none, none, none, "free", none⟩

def dbThree : List ActivityLog :=
  [⟨2, 0, "image", "success", 1, none, none⟩,
   ⟨2, 0, "image", "success", 1, none, none⟩,
   ⟨2, 0, "image", "success", 2, none, none⟩]

theorem c1_witness :
    (handle_media_pdf DEFAULT_TIERS dbThree userFree 1000 420 4 100 (fun _ => none)).rejected
        = false ∧
    (handle_media_pdf DEFAULT_TIERS dbThree userFree 1000 420 4 100 (fun _ => none)).attempted
        = List.range ((2 : Int)).toNat ∧
    (handle_media_pdf DEFAULT_TIERS dbThree userFree 1000 420 4 100 (fun _ => none)).pagesSkipped
        = 4 - ((2 : Int)).toNat :=
  c1_pdf_partial_grant DEFAULT_TIERS dbThree userFree 1000 420 4 100 (fun _ => none) 2
    (by decide) (by decide) (by decide) (by decide)

/-- C2: for a PDF and a user with a finite daily limit whose quota is used
up (`used_today ≥ daily_limit`), no page is attempted, exactly one
`limit_exceeded` row is written for the whole batch, and the reply carries
the `used_today` and `daily_limit` numbers. -/
theorem c2_pdf_quota_rejected (tiers : List TierRow) (db : List ActivityLog) (u : User)
    (nowUtc tzOff : Int) (pageCount fileSize : Nat) (pr : Nat → Option (List JVal))
    (hfin : (check_quota tiers db u nowUtc tzOff).daily_limit ≠ -1)
    (hused : (check_quota tiers db u nowUtc tzOff).daily_limit
        ≤ ((check_quota tiers db u nowUtc tzOff).used_today : Int))
    (hpc : 0 < pageCount) :
    (handle_media_pdf tiers db u nowUtc tzOff pageCount fileSize pr).rejected = true ∧
    (handle_media_pdf tiers db u nowUtc tzOff pageCount fileSize pr).attempted = [] ∧
    (handle_media_pdf tiers db u nowUtc tzOff pageCount fileSize pr).db
      = db ++ [⟨u.id, nowUtc, "pdf", "limit_exceeded", 0,
          some ("Daily quota exceeded (PDF has " ++ toString pageCount ++ " pages)"), none⟩] ∧
    (handle_media_pdf tiers db u nowUtc tzOff pageCount fileSize pr).reply
      = .quotaExceeded (check_quota tiers db u nowUtc tzOff).used_today
          (check_quota tiers db u nowUtc tzOff).daily_limit := by
  have hunl : (check_quota tiers db u nowUtc tzOff).is_unlimited = false := by
    simp [QuotaStatus.is_unlimited, hfin]
  simp only [handle_media_pdf, hunl]
  rw [if_neg (by omega : ¬ pageCount = 0), if_neg (by simp),
    if_pos (by omega :
      (check_quota tiers db u nowUtc tzOff).daily_limit
        - ((check_quota tiers db u nowUtc tzOff).used_today : Int) ≤ 0)]
  simp [log_activity]

def dbFive : List ActivityLog :=
  [⟨2, 0, "image", "success", 1, none, none⟩,
   ⟨2, 0, "image", "success", 1, none, none⟩,
   ⟨2, 0, "pdf_page", "success", 1, none, none⟩,
   ⟨2, 0, "pdf_page", "success", 1, none, none⟩,
   ⟨2, 0, "text", "success", 2, none, none⟩]

theorem c2_witness :
    (handle_media_pdf DEFAULT_TIERS dbFive userFree 1000 420 3 100 (fun _ => none)).rejected
        = true ∧
    (handle_media_pdf DEFAULT_TIERS dbFive userFree 1000 420 3 100 (fun _ => none)).attempted
        = [] ∧
    (handle_media_pdf DEFAULT_TIERS dbFive userFree 1000 420 3 100 (fun _ => none)).db
      = dbFive ++ [⟨userFree.id, 1000, "pdf", "limit_exceeded", 0,
          some ("Daily quota exceeded (PDF has " ++ toString 3 ++ " pages)"), none⟩] ∧
    (handle_media_pdf DEFAULT_TIERS dbFive userFree 1000 420 3 100 (fun _ => none)).reply
      = .quotaExceeded (check_quota DEFAULT_TIERS dbFive userFree 1000 420).used_today
          (check_quota DEFAULT_TIERS dbFive userFree 1000 420).daily_limit :=
  c2_pdf_quota_rejected DEFAULT_TIERS dbFive userFree 1000 420 3 100 (fun _ => none)
    (by decide) (by decide) (by decide)

/-- Per the spec's words: the number of activity records with status
"success" for this user since local-timezone midnight. -/
def spec_success_count_since_local_midnight (db : List ActivityLog) (uid : Nat)
    (nowUtc tzOff : Int) : Nat :=
  (db.filter (fun l => l.processing_status == "success"
      && l.user_id == uid
      && decide (local_midnight_utc nowUtc tzOff ≤ l.timestamp))).length

/-- C3: on every check, `used_today` equals the count of this user's
"success" activity rows timestamped at or after local midnight (converted
to UTC), recomputed from the log itself — the check reads the store and
never consults a cached counter (the result is a function of the current
log for every log state, and the store is returned unchanged). -/
theorem c3_used_today_recomputed (tiers : List TierRow) (db : List ActivityLog) (u : User)
    (nowUtc tzOff : Int) :
    (check_quota_state tiers db u nowUtc tzOff).1.used_today
        = spec_success_count_since_local_midnight db u.id nowUtc tzOff ∧
    (check_quota_state tiers db u nowUtc tzOff).2 = db := by
  have hcount : get_today_usage db u.id nowUtc tzOff
      = spec_success_count_since_local_midnight db u.id nowUtc tzOff := by
    unfold get_today_usage spec_success_count_since_local_midnight
    rw [← List.countP_eq_length_filter]
    refine List.countP_congr ?_
    intro a _
    constructor <;> (intro h; simp only [Bool.and_eq_true] at h ⊢; tauto)
  constructor
  · simp only [check_quota_state, get_today_usage_state]
    split <;> simpa using hcount
  · simp only [check_quota_state, get_today_usage_state]
    split <;> rfl

/-- C6: checking the quota twice in a row with no intervening write yields
the same `QuotaStatus`, and the check leaves the activity store unchanged. -/
theorem c6_check_quota_idempotent (tiers : List TierRow) (db : List ActivityLog) (u : User)
    (nowUtc tzOff : Int) :
    (check_quota_state tiers ((check_quota_state tiers db u nowUtc tzOff).2) u nowUtc tzOff).1
        = (check_quota_state tiers db u nowUtc tzOff).1 ∧
    (check_quota_state tiers db u nowUtc tzOff).2 = db := by
  have hdb : (check_quota_state tiers db u nowUtc tzOff).2 = db := by
    simp only [check_quota_state, get_today_usage_state]
    split <;> rfl
  exact ⟨by rw [hdb], hdb⟩

/-- C7: with `daily_limit = -1` the check always allows the request and
reports the sentinel 999999 as remaining; with a finite limit,
`remaining = max 0 (daily_limit - used_today)` and `can_proceed` holds
exactly when `used_today < daily_limit`. -/
theorem c7_quota_status_fields (tiers : List TierRow) (db : List ActivityLog) (u : User)
    (nowUtc tzOff : Int) :
    (u.daily_limit tiers = -1 →
      (check_quota tiers db u nowUtc tzOff).can_proceed = true ∧
      (check_quota tiers db u nowUtc tzOff).remaining = 999999) ∧
    (u.daily_limit tiers ≠ -1 →
      (check_quota tiers db u nowUtc tzOff).remaining
        = max 0 ((check_quota tiers db u nowUtc tzOff).daily_limit
            - ((check_quota tiers db u nowUtc tzOff).used_today : Int)) ∧
      ((check_quota tiers db u nowUtc tzOff).can_proceed = true ↔
        ((check_quota tiers db u nowUtc tzOff).used_today : Int)
          < (check_quota tiers db u nowUtc tzOff).daily_limit)) := by
  constructor
  · intro h
    simp [check_quota, h, QuotaStatus.remaining]
  · intro h
    simp [check_quota, h, QuotaStatus.remaining]

def userAdmin : User := ⟨1, 33410730, none, none, none, "admin", none⟩

theorem c7_witness :
    ((check_quota DEFAULT_TIERS dbFive userAdmin 1000 420).can_proceed = true ∧
      (check_quota DEFAULT_TIERS dbFive userAdmin 1000 420).remaining = 999999) ∧
    ((check_quota DEFAULT_TIERS dbFive userFree 1000 420).remaining
        = max 0 ((check_quota DEFAULT_TIERS dbFive userFree 1000 420).daily_limit
            - ((check_quota DEFAULT_TIERS dbFive userFree 1000 420).used_today : Int)) ∧
      ((check_quota DEFAULT_TIERS dbFive userFree 1000 420).can_proceed = true ↔
        ((check_quota DEFAULT_TIERS dbFive userFree 1000 420).used_today : Int)
          < (check_quota DEFAULT_TIERS dbFive userFree 1000 420).daily_limit)) :=
  ⟨(c7_quota_status_fields DEFAULT_TIERS dbFive userAdmin 1000 420).1 (by decide),
   (c7_quota_status_fields DEFAULT_TIERS dbFive userFree 1000 420).2 (by decide)⟩

/-- C5: when extraction of an allowed page fails — timeout, non-200
response, or unparseable model output — a "failed" activity row with a
populated error message is written at that page's position in the log, and
the next allowed page (if any) is still attempted. -/
theorem c5_page_failure_continues (tiers : List TierRow) (db : List ActivityLog) (u : User)
    (nowUtc tzOff : Int) (pageCount fileSize : Nat) (fetch : Nat → ApiResult) (i : Nat)
    (hi : i < (handle_media_pdf tiers db u nowUtc tzOff pageCount fileSize
        (fun j => convert_pdf_page_to_data (fetch j))).pagesToProcess)
    (hf : fetch i = .timeout
        ∨ (∃ st c, st ≠ 200 ∧ fetch i = .resp st c)
        ∨ (∃ c, fetch i = .resp 200 (some c) ∧ extract_json_image c = none)) :
    ((handle_media_pdf tiers db u nowUtc tzOff pageCount fileSize
        (fun j => convert_pdf_page_to_data (fetch j))).db)[db.length + i]?
      = some (page_log u.id fileSize pageCount nowUtc i none) ∧
    (page_log u.id fileSize pageCount nowUtc i none).processing_status = "failed" ∧
    (page_log u.id fileSize pageCount nowUtc i none).error_message
      = some ("Failed to extract data from page " ++ toString (i + 1)) ∧
    (i + 1 < (handle_media_pdf tiers db u nowUtc tzOff pageCount fileSize
        (fun j => convert_pdf_page_to_data (fetch j))).pagesToProcess →
      (i + 1) ∈ (handle_media_pdf tiers db u nowUtc tzOff pageCount fileSize
        (fun j => convert_pdf_page_to_data (fetch j))).attempted) := by
  have hnone : convert_pdf_page_to_data (fetch i) = none := by
    rcases hf with h | ⟨st, c, hst, h⟩ | ⟨c, h, hext⟩
    · simp [h, convert_pdf_page_to_data]
    · simp [h, convert_pdf_page_to_data, hst]
    · simp [h, convert_pdf_page_to_data, hext]
  have hrej : (handle_media_pdf tiers db u nowUtc tzOff pageCount fileSize
      (fun j => convert_pdf_page_to_data (fetch j))).rejected = false := by
    cases hr : (handle_media_pdf tiers db u nowUtc tzOff pageCount fileSize
        (fun j => convert_pdf_page_to_data (fetch j))).rejected
    · rfl
    · have := handle_media_pdf_rejected_ptp tiers db u nowUtc tzOff pageCount fileSize
        (fun j => convert_pdf_page_to_data (fetch j)) hr
      omega
  obtain ⟨hatt, hdbfn⟩ := handle_media_pdf_shape tiers db u nowUtc tzOff pageCount fileSize
    (fun j => convert_pdf_page_to_data (fetch j))
  have hdb := hdbfn hrej
  refine ⟨?_, rfl, rfl, ?_⟩
  · rw [hdb, List.getElem?_append_right (by omega)]
    have hidx : db.length + i - db.length = i := by omega
    rw [hidx, List.getElem?_map, List.getElem?_range' 0 1 hi]
    simp [hnone]
  · intro hnext
    rw [hatt, List.mem_range']
    exact ⟨i + 1, hnext, by omega⟩

def pageOkContent : Str := renderRecArr [[(['a'], .fnum 125000)]]

def fetchWitness (j : Nat) : ApiResult :=
  if j = 0 then .resp 500 none else .resp 200 (some pageOkContent)

theorem c5_witness :
    ((handle_media_pdf DEFAULT_TIERS [] userFree 1000 420 2 100
        (fun j => convert_pdf_page_to_data (fetchWitness j))).db)[(0 : Nat)]?
      = some (page_log userFree.id 100 2 1000 0 none) ∧
    (page_log userFree.id 100 2 1000 0 none).processing_status = "failed" ∧
    (page_log userFree.id 100 2 1000 0 none).error_message
      = some ("Failed to extract data from page " ++ toString (0 + 1)) ∧
    (0 + 1 < (handle_media_pdf DEFAULT_TIERS [] userFree 1000 420 2 100
        (fun j => convert_pdf_page_to_data (fetchWitness j))).pagesToProcess →
      (0 + 1) ∈ (handle_media_pdf DEFAULT_TIERS [] userFree 1000 420 2 100
        (fun j => convert_pdf_page_to_data (fetchWitness j))).attempted) :=
  c5_page_failure_continues DEFAULT_TIERS [] userFree 1000 420 2 100 fetchWitness 0
    (by decide) (Or.inr (Or.inl ⟨500, none, by decide, rfl⟩))

/-! ### Claim theorems: user auto-registration (C10) -/

theorem update_user_names_tier (u : User) (username first last : Option String) :
    (update_user_names u username first last).tier = u.tier := by
  unfold update_user_names
  cases username <;> cases first <;> cases last <;> dsimp <;> split_ifs <;> rfl

theorem update_user_names_telegram_id (u : User) (username first last : Option String) :
    (update_user_names u username first last).telegram_id = u.telegram_id := by
  unfold update_user_names
  cases username <;> cases first <;> cases last <;> dsimp <;> split_ifs <;> rfl

theorem apply_user_updates_tier (u : User) (tid : Int) (username first last : Option String)
    (adminIds : List Int) :
    (apply_user_updates u tid username first last adminIds).tier
      = if tid ∈ adminIds ∧ u.tier ≠ "admin" then "admin" else u.tier := by
  simp only [apply_user_updates]
  rw [update_user_names_tier]
  split_ifs with hc
  · rfl
  · exact update_user_names_tier u username first last

theorem apply_user_updates_telegram_id (u : User) (tid : Int)
    (username first last : Option String) (adminIds : List Int) :
    (apply_user_updates u tid username first last adminIds).telegram_id = u.telegram_id := by
  simp only [apply_user_updates]
  split_ifs <;> simp [update_user_names_telegram_id]

theorem find?_update_found (us : List User) (tid : Int) (u1 : User)
    (h : (get_user_by_telegram_id us tid).isSome) (h1 : u1.telegram_id = tid) :
    get_user_by_telegram_id (update_found us tid u1) tid = some u1 := by
  induction us with
  | nil => simp [get_user_by_telegram_id] at h
  | cons u r ih =>
    unfold get_user_by_telegram_id at h ih ⊢
    unfold update_found
    by_cases hc : (u.telegram_id == tid) = true
    · rw [if_pos hc]
      have hu1 : (u1.telegram_id == tid) = true := by simp [h1]
      simp only [List.find?_cons, hu1]
    · rw [if_neg hc]
      have hc' : (u.telegram_id == tid) = false := by simpa using hc
      simp only [List.find?_cons, hc'] at h ⊢
      exact ih h

theorem admin_tier_daily_limit (x : User) (hx : x.tier = "admin") :
    x.daily_limit DEFAULT_TIERS = -1 := by
  unfold User.daily_limit DEFAULT_TIERS
  rw [hx]
  decide

/-- C10 (implicit): whenever the telegram id is in the admin list,
`get_or_create_user` returns an "admin"-tier user — an existing user is
upgraded in the store, a new user is created as admin — and the admin tier
has the unlimited sentinel `-1`; when the id is not listed, an existing
user's tier is left unchanged. -/
theorem c10_admin_auto_upgrade (us : List User) (tid : Int)
    (username first last : Option String) (adminIds : List Int) :
    (tid ∈ adminIds →
      (get_or_create_user us tid username first last adminIds).1.1.tier = "admin" ∧
      (∀ u', get_user_by_telegram_id
          (get_or_create_user us tid username first last adminIds).2 tid = some u' →
        u'.tier = "admin") ∧
      ((get_or_create_user us tid username first last adminIds).1.1).daily_limit DEFAULT_TIERS
        = -1) ∧
    (tid ∉ adminIds → ∀ u0, get_user_by_telegram_id us tid = some u0 →
      (get_or_create_user us tid username first last adminIds).1.1.tier = u0.tier) := by
  constructor
  · intro hmem
    unfold get_or_create_user
    cases hfind : get_user_by_telegram_id us tid with
    | some u0 =>
      dsimp
      have ht : (apply_user_updates u0 tid username first last adminIds).tier = "admin" := by
        rw [apply_user_updates_tier]
        split_ifs with hc
        · rfl
        · by_cases hadm : u0.tier = "admin"
          · exact hadm
          · exact absurd ⟨hmem, hadm⟩ hc
      have htid : (apply_user_updates u0 tid username first last adminIds).telegram_id = tid := by
        rw [apply_user_updates_telegram_id]
        have := List.find?_some hfind
        simpa using this
      refine ⟨ht, ?_, admin_tier_daily_limit _ ht⟩
      intro u' hu'
      rw [find?_update_found us tid _ (by rw [hfind]; rfl) htid] at hu'
      cases hu'
      exact ht
    | none =>
      dsimp
      rw [if_pos hmem]
      refine ⟨rfl, ?_, admin_tier_daily_limit _ rfl⟩
      intro u' hu'
      unfold get_user_by_telegram_id at hu' hfind
      unfold create_user at hu'
      rw [List.find?_append, hfind] at hu'
      simp at hu'
      cases hu'
      rfl
  · intro hnmem u0 hfind
    unfold get_or_create_user
    rw [hfind]
    dsimp
    rw [apply_user_updates_tier]
    split_ifs with hc
    · exact absurd hc.1 hnmem
    · rfl

def usersW : List User := [⟨1, 900, none, none, none, "free", none⟩]

theorem c10_witness :
    (get_or_create_user usersW 900 none none none [900]).1.1.tier = "admin" ∧
    ((get_or_create_user usersW 900 none none none [900]).1.1).daily_limit DEFAULT_TIERS
      = -1 ∧
    (get_or_create_user usersW 900 none none none []).1.1.tier = "free" :=
  ⟨((c10_admin_auto_upgrade usersW 900 none none none [900]).1 (by decide)).1,
   ((c10_admin_auto_upgrade usersW 900 none none none [900]).1 (by decide)).2.2,
   by
    have h := (c10_admin_auto_upgrade usersW 900 none none none []).2 (by decide)
      ⟨1, 900, none, none, none, "free", none⟩ (by decide)
    simpa using h⟩

/-! ### Claim theorems: output row defaults (C9) -/

/-- C9 counterexample: for a record with no fields, the mapped row holds
the empty string in the three string positions — not the string "-" the
claim asserts. -/
theorem c9_counterexample :
    (row_data [] [] 0)[0]? = some (.jstr []) ∧
    (row_data [] [] 0)[1]? = some (.jstr []) ∧
    (row_data [] [] 0)[2]? = some (.jstr []) ∧
    (JVal.jstr [] : JVal) ≠ .jstr ['-'] := by
  decide

/-- C9 as amended: the row has exactly 11 positional fields; a missing
numeric field (`harga`, `jumlah`, `service`, `pajak`, `ppn`, `subtotal`)
defaults to 0 and a missing string field (`waktu`, `penjual`, `barang`)
defaults to the empty string `""` (the prompt, not the row mapper, asks
the model to emit "-"). -/
theorem c9_row_defaults (invoice : List (Str × JVal)) (userId : Str) (unixTs : Nat) :
    (row_data invoice userId unixTs).length = 11 ∧
    (invoice.find? (fun p => p.1 == kWaktu) = none →
      (row_data invoice userId unixTs)[0]? = some (.jstr [])) ∧
    (invoice.find? (fun p => p.1 == kPenjual) = none →
      (row_data invoice userId unixTs)[1]? = some (.jstr [])) ∧
    (invoice.find? (fun p => p.1 == kBarang) = none →
      (row_data invoice userId unixTs)[2]? = some (.jstr [])) ∧
    (invoice.find? (fun p => p.1 == kHarga) = none →
      (row_data invoice userId unixTs)[3]? = some (.jnum 0)) ∧
    (invoice.find? (fun p => p.1 == kJumlah) = none →
      (row_data invoice userId unixTs)[4]? = some (.jnum 0)) ∧
    (invoice.find? (fun p => p.1 == kService) = none →
      (row_data invoice userId unixTs)[5]? = some (.jnum 0)) ∧
    (invoice.find? (fun p => p.1 == kPajak) = none →
      (row_data invoice userId unixTs)[6]? = some (.jnum 0)) ∧
    (invoice.find? (fun p => p.1 == kPpn) = none →
      (row_data invoice userId unixTs)[7]? = some (.jnum 0)) ∧
    (invoice.find? (fun p => p.1 == kSubtotal) = none →
      (row_data invoice userId unixTs)[8]? = some (.jnum 0)) := by
  refine ⟨rfl, ?_, ?_, ?_, ?_, ?_, ?_, ?_, ?_, ?_⟩ <;>
    (intro h; simp [row_data, jget, h])

theorem c9_witness :
    (row_data [] ['7'] 5)[0]? = some (.jstr []) ∧
    (row_data [] ['7'] 5)[3]? = some (.jnum 0) :=
  ⟨(c9_row_defaults [] ['7'] 5).2.1 (by decide),
   (c9_row_defaults [] ['7'] 5).2.2.2.2.1 (by decide)⟩

/-! ### Claim theorems: empty extraction result (C4) -/

/-- C4 counterexample: the model output `[]` parses to an empty array, yet
`convert_image_to_data` / `convert_text_to_data` return `None` — the very
value returned for unparseable output — so callers cannot tell "nothing
extracted" apart from a normalization failure. -/
theorem c4_counterexample :
    extract_json_image ['[', ']'] = some [] ∧
    convert_image_to_data (.resp 200 (some ['[', ']'])) = none ∧
    convert_text_to_data (.resp 200 (some ['[', ']'])) = none ∧
    convert_image_to_data (.resp 200 (some ['x'])) = none ∧
    convert_image_to_data (.resp 200 (some ['[', ']']))
      = convert_image_to_data (.resp 200 (some ['x'])) := by
  decide

/-- C4 as amended: when the model output parses to an empty JSON array,
the conversion routines return `None` — the same sentinel as a
normalization failure — so empty is treated as a failure ("no data
found"), not returned as a distinguishable empty array. -/
theorem c4_empty_array_is_failure (c d : Str)
    (himg : extract_json_image c = some [])
    (htxt : extract_json_text d = some []) :
    convert_image_to_data (.resp 200 (some c)) = none ∧
    convert_text_to_data (.resp 200 (some d)) = none ∧
    convert_image_to_data (.resp 200 (some c)) = convert_image_to_data .exn := by
  simp [convert_image_to_data, convert_text_to_data, himg, htxt]

theorem c4_witness :
    convert_image_to_data (.resp 200 (some ['[', ']'])) = none ∧
    convert_text_to_data (.resp 200 (some ['[', ']'])) = none ∧
    convert_image_to_data (.resp 200 (some ['[', ']'])) = convert_image_to_data .exn :=
  c4_empty_array_is_failure ['[', ']'] ['[', ']'] (by decide) (by decide)

/-! ### String lemmas for the round-trip property (C8) -/

theorem findCh_eq_none (t : Char) : ∀ s : Str, findCh s t = none ↔ t ∉ s := by
  intro s
  induction s with
  | nil => simp [findCh]
  | cons c r ih =>
    simp only [findCh]
    split_ifs with hc
    · subst hc
      simp
    · simp [Option.map_eq_none', ih, hc, Ne.symm hc]

theorem findCh_lt_length (t : Char) : ∀ s : Str, ∀ i, findCh s t = some i → i < s.length := by
  intro s
  induction s with
  | nil => simp [findCh]
  | cons c r ih =>
    intro i h
    simp only [findCh] at h
    split_ifs at h with hc
    · cases h
      simp
    · rcases Option.map_eq_some'.mp h with ⟨j, hj, rfl⟩
      have := ih j hj
      simp
      omega

theorem findCh_cons_self (t : Char) (r : Str) : findCh (t :: r) t = some 0 := by
  simp [findCh]

theorem findCh_append_of_not_mem (t : Char) (p q : Str) (h : t ∉ p) :
    findCh (p ++ q) t = (findCh q t).map (· + p.length) := by
  induction p with
  | nil => simp [Option.map_id']
  | cons c r ih =>
    have hc : c ≠ t := by rintro rfl; simp at h
    have hr : t ∉ r := by intro hm; exact h (List.mem_cons_of_mem _ hm)
    rw [List.cons_append]
    show (if c = t then some 0 else (findCh (r ++ q) t).map (· + 1)) = _
    rw [if_neg hc, ih hr]
    cases findCh q t with
    | none => rfl
    | some i =>
      rfl

/-- First occurrence in `p ++ s ++ q` when `t` leads `s` and misses `p`. -/
theorem findCh_middle_head (t : Char) (p s q : Str) (hp : t ∉ p) (hs : s.head? = some t) :
    findCh (p ++ s ++ q) t = some p.length := by
  rcases s with _ | ⟨c, r⟩
  · simp at hs
  · cases hs
    rw [List.append_assoc, findCh_append_of_not_mem t p _ hp]
    simp [findCh_cons_self]

theorem rfindCh_concat_self (t : Char) (p : Str) : rfindCh (p ++ [t]) t = some p.length := by
  unfold rfindCh
  rw [List.reverse_append]
  simp [findCh_cons_self]

theorem rfindCh_append_of_not_mem (t : Char) (p q : Str) (h : t ∉ q) :
    rfindCh (p ++ q) t = rfindCh p t := by
  unfold rfindCh
  rw [List.reverse_append, findCh_append_of_not_mem t _ _ (by simpa using h)]
  cases hf : findCh p.reverse t with
  | none => simp
  | some i =>
    have hi := findCh_lt_length t p.reverse i hf
    simp at hi
    simp [List.length_append]
    omega

theorem rfindCh_lt_length (t : Char) (s : Str) (i : Nat) (h : rfindCh s t = some i) :
    i < s.length := by
  unfold rfindCh at h
  rcases Option.map_eq_some'.mp h with ⟨j, hj, rfl⟩
  have := findCh_lt_length t s.reverse j hj
  simp at this
  omega

theorem rfindCh_eq_none (t : Char) (s : Str) : rfindCh s t = none ↔ t ∉ s := by
  unfold rfindCh
  rw [Option.map_eq_none', findCh_eq_none]
  simp

/-- Last occurrence in `p ++ s ++ q` when `t` ends `s` and misses `q`. -/
theorem rfindCh_middle_last (t : Char) (p s q : Str) (hq : t ∉ q)
    (hs : s.getLast? = some t) :
    rfindCh (p ++ s ++ q) t = some (p.length + s.length - 1) := by
  have hne : s ≠ [] := by rintro rfl; simp at hs
  have hb : s.getLast hne = t := by
    rw [List.getLast?_eq_getLast s hne, Option.some_inj] at hs
    exact hs
  have hsplit : s.dropLast ++ [t] = s := by
    rw [← hb]
    exact List.dropLast_append_getLast hne
  rw [rfindCh_append_of_not_mem t _ q hq, ← hsplit, ← List.append_assoc,
    rfindCh_concat_self]
  congr 1
  simp only [List.length_append, List.length_cons, List.length_nil]
  omega

theorem pySlice_middle (p m q : Str) : pySlice (p ++ m ++ q) p.length (p.length + m.length) = m := by
  unfold pySlice
  rw [List.append_assoc, List.drop_left, Nat.add_sub_cancel_left, List.take_left]

theorem splitNl_of_not_mem (p : Str) (h : '\n' ∉ p) : splitNl p = [p] := by
  induction p with
  | nil => rfl
  | cons c r ih =>
    have hc : c ≠ '\n' := by rintro rfl; simp at h
    have hr : '\n' ∉ r := fun hm => h (List.mem_cons_of_mem _ hm)
    simp [splitNl, ih hr, hc]

theorem splitNl_append (p q : Str) (h : '\n' ∉ p) :
    splitNl (p ++ '\n' :: q) = p :: splitNl q := by
  induction p with
  | nil =>
    simp only [List.nil_append, splitNl]
    cases hq : splitNl q with
    | nil =>
      exfalso
      induction q with
      | nil => simp [splitNl] at hq
      | cons c r ihq =>
        simp only [splitNl] at hq
        rcases hs : splitNl r with _ | ⟨l, ls⟩
        · exact ihq hs
        · rw [hs] at hq
          split_ifs at hq
    | cons l ls => simp
  | cons c r ih =>
    have hc : c ≠ '\n' := by rintro rfl; simp at h
    have hr : '\n' ∉ r := fun hm => h (List.mem_cons_of_mem _ hm)
    simp only [List.cons_append, splitNl, List.append_eq]
    rw [ih hr]
    simp [hc]

theorem stripS_id (s : Str) (h1 : ∀ a, s.head? = some a → isWsC a = false)
    (h2 : ∀ b, s.getLast? = some b → isWsC b = false) : stripS s = s := by
  rcases s with _ | ⟨c, r⟩
  · rfl
  · unfold stripS
    rw [List.dropWhile_cons, if_neg (by simp [h1 c rfl])]
    have hne : (c :: r : Str) ≠ [] := by simp
    obtain ⟨b, hb⟩ : ∃ b, (c :: r : Str).getLast? = some b :=
      ⟨(c :: r).getLast hne, List.getLast?_eq_getLast _ hne⟩
    have hsplit : (c :: r : Str).dropLast ++ [b] = c :: r := by
      have := List.dropLast_append_getLast hne
      rw [List.getLast?_eq_getLast _ hne, Option.some_inj] at hb
      rw [hb] at this
      exact this
    rw [← hsplit, List.reverse_append]
    simp only [List.reverse_cons, List.reverse_nil, List.nil_append, List.singleton_append]
    rw [List.dropWhile_cons, if_neg (by simp [h2 b hb])]
    simp

/-! ### Replace-identity lemmas -/

def occursB (pat : Str) : Str → Bool
  | [] => false
  | c :: r => pat.isPrefixOf (c :: r) || occursB pat r

theorem replAll_id (pat rep : Str) : ∀ s, occursB pat s = false → replAll pat rep s = s := by
  intro s
  induction s with
  | nil => intro _; rfl
  | cons c r ih =>
    intro h
    simp only [occursB, Bool.or_eq_false_iff] at h
    rw [replAll_cons, if_neg (by simp [h.1]), ih h.2]

theorem occursB_of_not_mem (pat s : Str) (a : Char) (ha : a ∈ pat) (hs : a ∉ s) :
    occursB pat s = false := by
  induction s with
  | nil => rfl
  | cons c r ih =>
    have h1 : pat.isPrefixOf (c :: r) = false := by
      by_contra hh
      have hpre : pat <+: (c :: r) := List.isPrefixOf_iff_prefix.mp (by simpa using hh)
      exact hs (hpre.subset ha)
    simp [occursB, h1, ih (fun hm => hs (List.mem_cons_of_mem _ hm))]

theorem hazFreeB_tail (c : Char) (r : Str) (h : hazFreeB (c :: r) = true) :
    hazFreeB r = true := by
  cases r with
  | nil => rfl
  | cons d r' =>
    simp only [hazFreeB, Bool.and_eq_true] at h
    exact h.2

theorem hazFreeB_pair (a b : Char) (r : Str) (h : hazFreeB (a :: b :: r) = true) :
    ¬(a = ',' ∧ (b = ']' ∨ b = '}')) := by
  simp only [hazFreeB, Bool.and_eq_true] at h
  have h1 := h.1
  simp only [Bool.not_eq_true', Bool.and_eq_false_iff, Bool.or_eq_false_iff,
    decide_eq_false_iff_not] at h1
  tauto

theorem occurs_pair_of_hazFree (x : Char) (hx : x = ']' ∨ x = '}') :
    ∀ s, hazFreeB s = true → occursB [',', x] s = false := by
  intro s
  induction s with
  | nil => intro _; rfl
  | cons a r ih =>
    intro h
    have hr := hazFreeB_tail a r h
    have h1 : ([',', x] : Str).isPrefixOf (a :: r) = false := by
      cases r with
      | nil =>
        simp [List.isPrefixOf]
      | cons b r' =>
        have hp := hazFreeB_pair a b r' h
        simp only [List.isPrefixOf, Bool.and_eq_false_iff]
        by_cases ha : a = ','
        · subst ha
          by_cases hb : b = x
          · exact absurd ⟨rfl, hb ▸ hx⟩ hp
          · right
            simp [Ne.symm hb]
        · left
          simp [Ne.symm ha]
    simp [occursB, h1, ih hr]

theorem hazFreeB_append (p q : Str) (hp : hazFreeB p = true) (hq : hazFreeB q = true)
    (hb : ¬(p.getLast? = some ',' ∧ (q.head? = some ']' ∨ q.head? = some '}'))) :
    hazFreeB (p ++ q) = true := by
  induction p with
  | nil => simpa
  | cons a p' ih =>
    cases p' with
    | nil =>
      cases q with
      | nil => simpa
      | cons b q' =>
        simp only [List.singleton_append, hazFreeB, Bool.and_eq_true]
        refine ⟨?_, hq⟩
        simp only [List.getLast?_singleton, List.head?_cons, Option.some_inj] at hb
        simp only [Bool.not_eq_true', Bool.and_eq_false_iff, Bool.or_eq_false_iff,
          decide_eq_false_iff_not]
        tauto
    | cons a2 p'' =>
      simp only [List.cons_append, hazFreeB, Bool.and_eq_true] at hp ⊢
      refine ⟨hp.1, ?_⟩
      have hb' : ¬((a2 :: p'').getLast? = some ','
          ∧ (q.head? = some ']' ∨ q.head? = some '}')) := by
        rwa [List.getLast?_cons_cons] at hb
      have := ih hp.2 hb'
      simpa using this

theorem hazFreeB_of_no_comma (s : Str) (h : ',' ∉ s) : hazFreeB s = true := by
  induction s with
  | nil => rfl
  | cons a r ih =>
    have ha : a ≠ ',' := by rintro rfl; simp at h
    have hr := ih (fun hm => h (List.mem_cons_of_mem _ hm))
    cases r with
    | nil => rfl
    | cons b r' =>
      simp only [hazFreeB, Bool.and_eq_true]
      exact ⟨by simp [ha], hr⟩

/-! ### Character classes and shapes of the canonical render -/

theorem digitCh_ten (d : Nat) : digitCh (d + 10) = '0' := rfl

theorem isDigitCh_digitCh (d : Nat) : isDigitCh (digitCh d) = true := by
  rcases d with _|_|_|_|_|_|_|_|_|_|d
  · decide
  · decide
  · decide
  · decide
  · decide
  · decide
  · decide
  · decide
  · decide
  · decide
  · rw [digitCh_ten]
    decide

theorem digitVal_digitCh (d : Nat) (h : d < 10) : digitVal (digitCh d) = d := by
  rcases d with _|_|_|_|_|_|_|_|_|_|d
  · rfl
  · rfl
  · rfl
  · rfl
  · rfl
  · rfl
  · rfl
  · rfl
  · rfl
  · rfl
  · omega

theorem digit_not_special (c : Char) (h : isDigitCh c = true) :
    isWsC c = false ∧ c ≠ '"' ∧ c ≠ '[' ∧ c ≠ '{' ∧ c ≠ ',' ∧ c ≠ ']' ∧ c ≠ '}'
      ∧ c ≠ '\n' ∧ c ≠ '\\' ∧ 32 ≤ c.toNat := by
  simp only [isDigitCh, Bool.and_eq_true, decide_eq_true_eq] at h
  refine ⟨?_, ?_, ?_, ?_, ?_, ?_, ?_, ?_, ?_, by omega⟩
  · simp only [isWsC, Bool.or_eq_false_iff, decide_eq_false_iff_not]
    refine ⟨⟨⟨?_, ?_⟩, ?_⟩, ?_⟩ <;> (rintro rfl; revert h; decide)
  all_goals (rintro rfl; revert h; decide)

theorem mem_renderNat (n : Nat) : ∀ c ∈ renderNat n, isDigitCh c = true := by
  induction n using Nat.strong_induction_on with
  | _ n ih =>
    rw [renderNat_eq]
    split_ifs with h
    · simp only [List.forall_mem_singleton]
      exact isDigitCh_digitCh n
    · rw [List.forall_mem_append]
      refine ⟨ih (n / 10) (Nat.div_lt_self (by omega) (by omega)), ?_⟩
      simp only [List.forall_mem_singleton]
      exact isDigitCh_digitCh (n % 10)

theorem renderNat_ne_nil (n : Nat) : renderNat n ≠ [] := by
  rw [renderNat_eq]
  split_ifs <;> simp

theorem renderNat_head (n : Nat) : ∃ d ds, renderNat n = d :: ds ∧ isDigitCh d = true := by
  rcases h : renderNat n with _ | ⟨d, ds⟩
  · exact absurd h (renderNat_ne_nil n)
  · exact ⟨d, ds, rfl, mem_renderNat n d (by rw [h]; simp)⟩

theorem ge32_escStr (s : Str) (hs : ∀ c ∈ s, 32 ≤ c.toNat) : ∀ c ∈ escStr s, 32 ≤ c.toNat := by
  induction s with
  | nil => simp [escStr]
  | cons c r ih =>
    rw [List.forall_mem_cons] at hs
    have hr := ih hs.2
    simp only [escStr]
    split_ifs
    · rw [List.forall_mem_cons, List.forall_mem_cons]
      exact ⟨by decide, hs.1, hr⟩
    · rw [List.forall_mem_cons]
      exact ⟨hs.1, hr⟩

theorem ge32_renderStrLit (s : Str) (hs : ∀ c ∈ s, 32 ≤ c.toNat) :
    ∀ c ∈ renderStrLit s, 32 ≤ c.toNat := by
  unfold renderStrLit
  simp only [List.forall_mem_cons, List.forall_mem_append, List.forall_mem_singleton]
  exact ⟨⟨by decide, ge32_escStr s hs⟩, by decide⟩

theorem ge32_renderFVal (v : FVal) (hv : goodFValB v = true) :
    ∀ c ∈ renderFVal v, 32 ≤ c.toNat := by
  cases v with
  | fstr s =>
    simp only [goodFValB, goodStrB, Bool.and_eq_true, List.all_eq_true,
      decide_eq_true_eq] at hv
    exact ge32_renderStrLit s hv.1
  | fnum n =>
    intro c hc
    exact (digit_not_special c (mem_renderNat n c hc)).2.2.2.2.2.2.2.2.2

theorem ge32_renderPairF (p : Str × FVal) (hk : ∀ c ∈ p.1, 32 ≤ c.toNat)
    (hv : goodFValB p.2 = true) : ∀ c ∈ renderPairF p, 32 ≤ c.toNat := by
  unfold renderPairF
  rw [List.forall_mem_append, List.forall_mem_cons, List.forall_mem_cons]
  exact ⟨ge32_renderStrLit p.1 hk, by decide, by decide, ge32_renderFVal p.2 hv⟩

theorem goodRecB_head (p : Str × FVal) (ps : FRec) (h : goodRecB (p :: ps) = true) :
    (∀ c ∈ p.1, 32 ≤ c.toNat) ∧ hazFreeB p.1 = true ∧ goodFValB p.2 = true
      ∧ goodRecB ps = true := by
  simp only [goodRecB, List.all_eq_true] at h ⊢
  have hp := h p (List.mem_cons_self _ _)
  simp only [Bool.and_eq_true, goodStrB, List.all_eq_true, decide_eq_true_eq] at hp
  exact ⟨hp.1.1, hp.1.2, hp.2, fun x hx => h x (List.mem_cons_of_mem _ hx)⟩

theorem ge32_renderPairsF (o : FRec) (ho : goodRecB o = true) :
    ∀ c ∈ renderPairsF o, 32 ≤ c.toNat := by
  induction o with
  | nil => simp [renderPairsF]
  | cons p ps ih =>
    obtain ⟨hk, _, hv, hps⟩ := goodRecB_head p ps ho
    have hpair := ge32_renderPairF p hk hv
    cases ps with
    | nil => simpa [renderPairsF] using hpair
    | cons q ps' =>
      show ∀ c ∈ renderPairF p ++ ',' :: ' ' :: renderPairsF (q :: ps'), 32 ≤ c.toNat
      rw [List.forall_mem_append, List.forall_mem_cons, List.forall_mem_cons]
      exact ⟨hpair, by decide, by decide, ih hps⟩

theorem ge32_renderRec (o : FRec) (ho : goodRecB o = true) :
    ∀ c ∈ renderRec o, 32 ≤ c.toNat := by
  unfold renderRec
  simp only [List.forall_mem_cons, List.forall_mem_append, List.forall_mem_singleton]
  exact ⟨⟨by decide, ge32_renderPairsF o ho⟩, by decide⟩

theorem goodRecsB_head (o : FRec) (os : List FRec) (h : goodRecsB (o :: os) = true) :
    goodRecB o = true ∧ goodRecsB os = true := by
  simp only [goodRecsB, List.all_eq_true] at h ⊢
  exact ⟨h o (List.mem_cons_self _ _), fun x hx => h x (List.mem_cons_of_mem _ hx)⟩

theorem ge32_renderItemsF (rs : List FRec) (hrs : goodRecsB rs = true) :
    ∀ c ∈ renderItemsF rs, 32 ≤ c.toNat := by
  induction rs with
  | nil => simp [renderItemsF]
  | cons o os ih =>
    obtain ⟨ho, hos⟩ := goodRecsB_head o os hrs
    cases os with
    | nil => simpa [renderItemsF] using ge32_renderRec o ho
    | cons q os' =>
      show ∀ c ∈ renderRec o ++ ',' :: ' ' :: renderItemsF (q :: os'), 32 ≤ c.toNat
      rw [List.forall_mem_append, List.forall_mem_cons, List.forall_mem_cons]
      exact ⟨ge32_renderRec o ho, by decide, by decide, ih hos⟩

theorem ge32_renderRecArr (rs : List FRec) (hrs : goodRecsB rs = true) :
    ∀ c ∈ renderRecArr rs, 32 ≤ c.toNat := by
  unfold renderRecArr
  simp only [List.forall_mem_cons, List.forall_mem_append, List.forall_mem_singleton]
  exact ⟨⟨by decide, ge32_renderItemsF rs hrs⟩, by decide⟩

theorem not_mem_of_ge32 (s : Str) (hs : ∀ c ∈ s, 32 ≤ c.toNat) (t : Char)
    (ht : t.toNat < 32) : t ∉ s := by
  intro hm
  have := hs t hm
  omega

theorem digitCh_ne_comma (d : Nat) : digitCh d ≠ ',' := by
  intro h
  have := isDigitCh_digitCh d
  rw [h] at this
  revert this
  decide

theorem hazFreeB_cons_of_ne (a : Char) (ha : a ≠ ',') (s : Str) (h : hazFreeB s = true) :
    hazFreeB (a :: s) = true := by
  cases s with
  | nil => rfl
  | cons b r =>
    simp only [hazFreeB, Bool.and_eq_true]
    exact ⟨by simp [ha], h⟩

theorem hazFreeB_comma_space (X : Str) (h : hazFreeB X = true) :
    hazFreeB (',' :: ' ' :: X) = true := by
  have h2 : hazFreeB (' ' :: X) = true := hazFreeB_cons_of_ne ' ' (by decide) X h
  simp only [hazFreeB, Bool.and_eq_true]
  exact ⟨by decide, by
    cases X with
    | nil => rfl
    | cons b r =>
      simp only [hazFreeB, Bool.and_eq_true] at h2 ⊢
      exact h2⟩

theorem escStr_head (s : Str) :
    (escStr s).head? = some '\\' ∨ (escStr s).head? = s.head? := by
  cases s with
  | nil => right; rfl
  | cons c r =>
    simp only [escStr]
    split_ifs
    · left; rfl
    · right; rfl

theorem hazFree_escStr (s : Str) (h : hazFreeB s = true) : hazFreeB (escStr s) = true := by
  induction s with
  | nil => rfl
  | cons c r ih =>
    have hr := ih (hazFreeB_tail c r h)
    simp only [escStr]
    split_ifs with hesc
    · refine hazFreeB_cons_of_ne '\\' (by decide) _ ?_
      refine hazFreeB_cons_of_ne c ?_ _ hr
      rcases hesc with rfl | rfl <;> decide
    · by_cases hc : c = ','
      · subst hc
        rcases hd : escStr r with _ | ⟨d, t⟩
        · rfl
        · have hdok : ¬(d = ']' ∨ d = '}') := by
            rcases escStr_head r with hh | hh <;> rw [hd] at hh
            · simp only [List.head?_cons, Option.some_inj] at hh
              subst hh
              decide
            · rcases r with _ | ⟨e, r'⟩
              · simp at hh
              · simp only [List.head?_cons, Option.some_inj] at hh
                subst hh
                exact fun hbad => hazFreeB_pair ',' d r' h ⟨rfl, hbad⟩
          push_neg at hdok
          simp only [hazFreeB, Bool.and_eq_true]
          refine ⟨by simp [hdok.1, hdok.2], ?_⟩
          rw [← hd]
          exact hr
      · exact hazFreeB_cons_of_ne c hc _ hr

theorem hazFree_renderStrLit (s : Str) (h : hazFreeB s = true) :
    hazFreeB (renderStrLit s) = true := by
  unfold renderStrLit
  refine hazFreeB_cons_of_ne '"' (by decide) _ ?_
  refine hazFreeB_append (escStr s) ['"'] (hazFree_escStr s h) rfl ?_
  rintro ⟨-, hbad | hbad⟩ <;> simp at hbad

theorem hazFree_renderNat (n : Nat) : hazFreeB (renderNat n) = true := by
  apply hazFreeB_of_no_comma
  intro hm
  have := mem_renderNat n ',' hm
  revert this
  decide

theorem hazFree_renderFVal (v : FVal) (hv : goodFValB v = true) :
    hazFreeB (renderFVal v) = true := by
  cases v with
  | fstr s =>
    simp only [goodFValB, goodStrB, Bool.and_eq_true] at hv
    exact hazFree_renderStrLit s hv.2
  | fnum n => exact hazFree_renderNat n

theorem renderFVal_lastOk (v : FVal) :
    ∃ c, (renderFVal v).getLast? = some c ∧ c ≠ ',' := by
  cases v with
  | fstr s =>
    refine ⟨'"', ?_, by decide⟩
    show (('"' :: escStr s) ++ ['"']).getLast? = some '"'
    exact List.getLast?_concat _
  | fnum n =>
    show ∃ c, (renderNat n).getLast? = some c ∧ c ≠ ','
    rw [renderNat_eq]
    split_ifs with h
    · exact ⟨digitCh n, List.getLast?_singleton _, digitCh_ne_comma n⟩
    · exact ⟨digitCh (n % 10), List.getLast?_concat _, digitCh_ne_comma (n % 10)⟩

theorem renderPairF_lastOk (p : Str × FVal) :
    ∃ c, (renderPairF p).getLast? = some c ∧ c ≠ ',' := by
  obtain ⟨c, hc, hcc⟩ := renderFVal_lastOk p.2
  refine ⟨c, ?_, hcc⟩
  unfold renderPairF
  rw [show (':' :: ' ' :: renderFVal p.2 : Str) = [':', ' '] ++ renderFVal p.2 from rfl,
    List.getLast?_append, List.getLast?_append, hc]
  rfl

theorem renderPairsF_lastOk (o : FRec) (ho : o ≠ []) :
    ∃ c, (renderPairsF o).getLast? = some c ∧ c ≠ ',' := by
  induction o with
  | nil => exact absurd rfl ho
  | cons p ps ih =>
    cases ps with
    | nil => exact renderPairF_lastOk p
    | cons q ps' =>
      obtain ⟨c, hc, hcc⟩ := ih (by simp)
      refine ⟨c, ?_, hcc⟩
      show (renderPairF p ++ ',' :: ' ' :: renderPairsF (q :: ps')).getLast? = some c
      rw [show (',' :: ' ' :: renderPairsF (q :: ps') : Str)
            = [',', ' '] ++ renderPairsF (q :: ps') from rfl,
        List.getLast?_append, List.getLast?_append, hc]
      rfl

theorem hazFree_renderPairF (p : Str × FVal) (hk : hazFreeB p.1 = true)
    (hv : goodFValB p.2 = true) : hazFreeB (renderPairF p) = true := by
  unfold renderPairF
  refine hazFreeB_append _ _ (hazFree_renderStrLit _ hk) ?_ ?_
  · refine hazFreeB_cons_of_ne ':' (by decide) _ ?_
    exact hazFreeB_cons_of_ne ' ' (by decide) _ (hazFree_renderFVal p.2 hv)
  · rintro ⟨-, hbad | hbad⟩ <;> simp at hbad

theorem hazFree_renderPairsF (o : FRec) (ho : goodRecB o = true) :
    hazFreeB (renderPairsF o) = true := by
  induction o with
  | nil => rfl
  | cons p ps ih =>
    obtain ⟨_, hkey, hv, hps⟩ := goodRecB_head p ps ho
    cases ps with
    | nil => exact hazFree_renderPairF p hkey hv
    | cons q ps' =>
      show hazFreeB (renderPairF p ++ ',' :: ' ' :: renderPairsF (q :: ps')) = true
      refine hazFreeB_append _ _ (hazFree_renderPairF p hkey hv)
        (hazFreeB_comma_space _ (ih hps)) ?_
      obtain ⟨c, hc, hcc⟩ := renderPairF_lastOk p
      rintro ⟨hlast, -⟩
      rw [hc] at hlast
      exact hcc (by simpa using hlast)

theorem hazFree_renderRec (o : FRec) (ho : goodRecB o = true) :
    hazFreeB (renderRec o) = true := by
  cases o with
  | nil => decide
  | cons p ps =>
    unfold renderRec
    refine hazFreeB_cons_of_ne '{' (by decide) _ ?_
    refine hazFreeB_append _ _ (hazFree_renderPairsF _ ho) rfl ?_
    rintro ⟨hlast, -⟩
    obtain ⟨c, hc, hcc⟩ := renderPairsF_lastOk (p :: ps) (by simp)
    rw [hc] at hlast
    exact hcc (by simpa using hlast)

theorem renderRec_last (o : FRec) : (renderRec o).getLast? = some '}' := by
  show (('{' :: renderPairsF o) ++ ['}']).getLast? = some '}'
  exact List.getLast?_concat _

theorem renderItemsF_last (rs : List FRec) (hrs : rs ≠ []) :
    (renderItemsF rs).getLast? = some '}' := by
  induction rs with
  | nil => exact absurd rfl hrs
  | cons o os ih =>
    cases os with
    | nil => exact renderRec_last o
    | cons q os' =>
      show (renderRec o ++ ',' :: ' ' :: renderItemsF (q :: os')).getLast? = some '}'
      rw [show (',' :: ' ' :: renderItemsF (q :: os') : Str)
            = [',', ' '] ++ renderItemsF (q :: os') from rfl,
        List.getLast?_append, List.getLast?_append, ih (by simp)]
      rfl

theorem hazFree_renderItemsF (rs : List FRec) (hrs : goodRecsB rs = true) :
    hazFreeB (renderItemsF rs) = true := by
  induction rs with
  | nil => rfl
  | cons o os ih =>
    obtain ⟨ho, hos⟩ := goodRecsB_head o os hrs
    cases os with
    | nil => exact hazFree_renderRec o ho
    | cons q os' =>
      show hazFreeB (renderRec o ++ ',' :: ' ' :: renderItemsF (q :: os')) = true
      refine hazFreeB_append _ _ (hazFree_renderRec o ho)
        (hazFreeB_comma_space _ (ih hos)) ?_
      rintro ⟨hlast, -⟩
      rw [renderRec_last o] at hlast
      simp at hlast

theorem hazFree_renderRecArr (rs : List FRec) (hrs : goodRecsB rs = true) :
    hazFreeB (renderRecArr rs) = true := by
  unfold renderRecArr
  refine hazFreeB_cons_of_ne '[' (by decide) _ ?_
  refine hazFreeB_append _ _ (hazFree_renderItemsF rs hrs) rfl ?_
  rintro ⟨hlast, -⟩
  cases rs with
  | nil => simp [renderItemsF] at hlast
  | cons o os =>
    rw [renderItemsF_last (o :: os) (by simp)] at hlast
    simp at hlast

theorem cleanTrailingCommas_id (s : Str) (h1 : hazFreeB s = true) (h2 : '\n' ∉ s) :
    cleanTrailingCommas s = s := by
  unfold cleanTrailingCommas
  rw [replAll_id _ _ _ (occursB_of_not_mem _ _ '\n' (by decide) h2),
    replAll_id _ _ _ (occursB_of_not_mem _ _ '\n' (by decide) h2),
    replAll_id _ _ _ (occurs_pair_of_hazFree '}' (Or.inr rfl) s h1),
    replAll_id _ _ _ (occurs_pair_of_hazFree ']' (Or.inl rfl) s h1)]

/-! ### Round-trip of the canonical render through the parser -/

/-- The remaining input may not start with a digit or whitespace (in the
grammar it is `,`, `]`, `}`, `:` or the end of input). -/
def restOk (rest : Str) : Prop :=
  ∀ c, rest.head? = some c → isDigitCh c = false ∧ isWsC c = false

theorem restOk_nil : restOk [] := by
  intro c h
  simp at h

theorem restOk_cons (c : Char) (r : Str) (h1 : isDigitCh c = false) (h2 : isWsC c = false) :
    restOk (c :: r) := by
  intro d hd
  simp only [List.head?_cons, Option.some_inj] at hd
  subst hd
  exact ⟨h1, h2⟩

theorem parseStrBody_escStr (s : Str) (rest : Str) :
    parseStrBody (escStr s ++ '"' :: rest) = some (s, rest) := by
  induction s with
  | nil =>
    show parseStrBody ('"' :: rest) = some ([], rest)
    unfold parseStrBody
    simp
  | cons c r ih =>
    simp only [escStr]
    split_ifs with hesc
    · show parseStrBody ('\\' :: c :: (escStr r ++ '"' :: rest)) = some (c :: r, rest)
      unfold parseStrBody
      simp [hesc, ih]
    · push_neg at hesc
      show parseStrBody (c :: (escStr r ++ '"' :: rest)) = some (c :: r, rest)
      unfold parseStrBody
      simp [hesc.1, hesc.2, ih]

theorem parseNatAux_stop (rest : Str) (v : Nat) (hrest : restOk rest) :
    parseNatAux rest v = (v, rest) := by
  cases rest with
  | nil => rfl
  | cons c r =>
    have := (hrest c rfl).1
    simp [parseNatAux, this]

theorem parseNatAux_renderNat (n : Nat) : ∀ acc rest,
    parseNatAux (renderNat n ++ rest) acc
      = parseNatAux rest (acc * 10 ^ (renderNat n).length + n) := by
  induction n using Nat.strong_induction_on with
  | _ n ih =>
    intro acc rest
    rw [renderNat_eq]
    split_ifs with h
    · show parseNatAux (digitCh n :: rest) acc = _
      simp only [parseNatAux, isDigitCh_digitCh n, if_pos]
      rw [digitVal_digitCh n h]
      congr 1
      simp only [List.length_singleton]
      ring
    · rw [List.append_assoc,
        ih (n / 10) (Nat.div_lt_self (by omega) (by omega)) acc ([digitCh (n % 10)] ++ rest)]
      show parseNatAux (digitCh (n % 10) :: rest) _ = _
      simp only [parseNatAux, isDigitCh_digitCh (n % 10), if_pos]
      rw [digitVal_digitCh (n % 10) (by omega)]
      congr 1
      simp only [List.length_append, List.length_singleton]
      have hmod : 10 * (n / 10) + n % 10 = n := Nat.div_add_mod n 10
      rw [pow_succ]
      ring_nf
      omega

theorem parseNat_render (n : Nat) (rest : Str) (hrest : restOk rest) :
    parseNatAux (renderNat n ++ rest) 0 = (n, rest) := by
  rw [parseNatAux_renderNat n 0 rest]
  simp only [Nat.zero_mul, Nat.zero_add]
  exact parseNatAux_stop rest n hrest

theorem parseVal_ws_cons (fuel : Nat) (c : Char) (hc : isWsC c = true) (s : Str) :
    parseVal fuel (c :: s) = parseVal fuel s := by
  cases fuel with
  | zero => rfl
  | succ f =>
    simp only [parseVal]
    rw [List.dropWhile_cons, if_pos hc]

/-- One evaluation step of `parseVal` on a non-whitespace head. -/
theorem parseVal_cons_eval (f : Nat) (c : Char) (s : Str) (hws : isWsC c = false) :
    parseVal (f + 1) (c :: s)
      = (if c = '"' then (parseStrBody s).map (fun pr => (JVal.jstr pr.1, pr.2))
        else if c = '[' then
          (if (s.dropWhile isWsC).head? = some ']' then
            some (JVal.jarr [], (s.dropWhile isWsC).tail)
          else (parseElems1 f (s.dropWhile isWsC)).map (fun pr => (JVal.jarr pr.1, pr.2)))
        else if c = '{' then
          (if (s.dropWhile isWsC).head? = some '}' then
            some (JVal.jobj [], (s.dropWhile isWsC).tail)
          else (parseMembers1 f (s.dropWhile isWsC)).map (fun pr => (JVal.jobj pr.1, pr.2)))
        else if isDigitCh c then
          some (JVal.jnum (parseNatAux (c :: s) 0).1, (parseNatAux (c :: s) 0).2)
        else none) := by
  simp only [parseVal]
  rw [List.dropWhile_cons, if_neg (by simp [hws])]

theorem parseVal_renderFVal (v : FVal) (fuel : Nat) (rest : Str) (hfuel : 1 ≤ fuel)
    (hrest : restOk rest) :
    parseVal fuel (renderFVal v ++ rest) = some (fvalToJ v, rest) := by
  obtain ⟨f, rfl⟩ : ∃ f, fuel = f + 1 := ⟨fuel - 1, by omega⟩
  cases v with
  | fstr s =>
    have hshape : renderFVal (.fstr s) ++ rest = '"' :: (escStr s ++ '"' :: rest) := by
      show ('"' :: (escStr s ++ ['"'])) ++ rest = _
      simp
    rw [hshape, parseVal_cons_eval f '"' _ (by decide), if_pos rfl, parseStrBody_escStr]
    rfl
  | fnum n =>
    obtain ⟨d, ds, hd, hdig⟩ := renderNat_head n
    obtain ⟨hws, hq, hlb, hlc, -, -, -, -, -, -⟩ := digit_not_special d hdig
    have hshape : renderFVal (.fnum n) ++ rest = d :: (ds ++ rest) := by
      show renderNat n ++ rest = _
      rw [hd]
      rfl
    rw [hshape, parseVal_cons_eval f d _ hws, if_neg hq, if_neg hlb, if_neg hlc,
      if_pos hdig]
    have hback : d :: (ds ++ rest) = renderNat n ++ rest := by rw [hd]; rfl
    rw [hback, parseNat_render n rest hrest]
    rfl

def costPairs : FRec → Nat
  | [] => 1
  | _ :: ps => 2 + costPairs ps

def costItems : List FRec → Nat
  | [] => 1
  | o :: os => 3 + costPairs o + costItems os

theorem dropWhile_cons_neg (c : Char) (hc : isWsC c = false) (s : Str) :
    List.dropWhile isWsC (c :: s) = c :: s := by
  rw [List.dropWhile_cons, if_neg (by simp [hc])]

theorem dropWhile_of_head (s : Str) (c : Char) (h : s.head? = some c)
    (hc : isWsC c = false) : s.dropWhile isWsC = s := by
  cases s with
  | nil => simp at h
  | cons d r =>
    simp only [List.head?_cons, Option.some_inj] at h
    subst h
    rw [List.dropWhile_cons, if_neg (by simp [hc])]

theorem renderPairF_head (p : Str × FVal) : (renderPairF p).head? = some '"' := by
  show ((('"' :: (escStr p.1 ++ ['"'])) : Str) ++ (':' :: ' ' :: renderFVal p.2)).head?
      = some '"'
  rfl

theorem renderPairsF_head (p : Str × FVal) (ps : FRec) :
    (renderPairsF (p :: ps)).head? = some '"' := by
  cases ps with
  | nil => exact renderPairF_head p
  | cons q ps' =>
    show (renderPairF p ++ ',' :: ' ' :: renderPairsF (q :: ps')).head? = some '"'
    have hpf := renderPairF_head p
    rcases hp : renderPairF p with _ | ⟨x, xs⟩
    · rw [hp] at hpf
      simp at hpf
    · rw [hp] at hpf
      simp only [List.head?_cons, Option.some_inj] at hpf
      subst hpf
      rfl

theorem renderItemsF_head (o : FRec) (os : List FRec) :
    (renderItemsF (o :: os)).head? = some '{' := by
  cases os with
  | nil => rfl
  | cons q os' => rfl

theorem parseMembers1_render (o : FRec) : ∀ (fuel : Nat) (rest : Str),
    o ≠ [] → goodRecB o = true → costPairs o ≤ fuel → restOk rest →
    parseMembers1 fuel (renderPairsF o ++ '}' :: rest)
      = some (o.map (fun p => (p.1, fvalToJ p.2)), rest) := by
  induction o with
  | nil => intro fuel rest h; exact absurd rfl h
  | cons p ps ih =>
    intro fuel rest _ hgood hfuel hrest
    obtain ⟨f, rfl⟩ : ∃ f, fuel = f + 1 := ⟨fuel - 1, by
      have : 2 + costPairs ps ≤ fuel := by simpa [costPairs] using hfuel
      omega⟩
    obtain ⟨-, hkey, hv, hps⟩ := goodRecB_head p ps hgood
    have hfuelf : 1 + costPairs ps ≤ f := by
      have : 2 + costPairs ps ≤ f + 1 := by simpa [costPairs] using hfuel
      omega
    cases ps with
    | nil =>
      have hshape : renderPairsF [p] ++ '}' :: rest
          = '"' :: (escStr p.1 ++ '"' :: (':' :: (' ' :: (renderFVal p.2 ++ '}' :: rest)))) := by
        show (('"' :: (escStr p.1 ++ ['"'])) ++ (':' :: ' ' :: renderFVal p.2)) ++ '}' :: rest
            = _
        simp
      rw [hshape]
      simp only [parseMembers1, List.head?_cons, if_pos rfl, List.tail_cons,
        parseStrBody_escStr]
      rw [dropWhile_cons_neg ':' (by decide)]
      simp only [List.head?_cons, if_pos rfl, List.tail_cons]
      rw [parseVal_ws_cons f ' ' (by decide), parseVal_renderFVal p.2 f ('}' :: rest)
        (by omega) (restOk_cons '}' rest (by decide) (by decide))]
      simp only []
      rw [dropWhile_cons_neg '}' (by decide), List.head?_cons,
        if_neg (by decide : ¬ (some '}' = some ',')), if_pos rfl, List.tail_cons]
      rfl
    | cons q ps' =>
      have hshape : renderPairsF (p :: q :: ps') ++ '}' :: rest
          = '"' :: (escStr p.1 ++ '"' :: (':' :: (' ' :: (renderFVal p.2
              ++ ',' :: (' ' :: (renderPairsF (q :: ps') ++ '}' :: rest)))))) := by
        show ((('"' :: (escStr p.1 ++ ['"'])) ++ (':' :: ' ' :: renderFVal p.2))
            ++ ',' :: ' ' :: renderPairsF (q :: ps')) ++ '}' :: rest = _
        simp
      rw [hshape]
      simp only [parseMembers1, List.head?_cons, if_pos rfl, List.tail_cons,
        parseStrBody_escStr]
      rw [dropWhile_cons_neg ':' (by decide)]
      simp only [List.head?_cons, if_pos rfl, List.tail_cons]
      rw [parseVal_ws_cons f ' ' (by decide),
        parseVal_renderFVal p.2 f (',' :: (' ' :: (renderPairsF (q :: ps') ++ '}' :: rest)))
          (by omega) (restOk_cons _ _ (by decide) (by decide))]
      simp only []
      rw [dropWhile_cons_neg ',' (by decide), List.head?_cons, if_pos rfl, List.tail_cons]
      have hdrop2 : ((' ' :: (renderPairsF (q :: ps') ++ '}' :: rest)).dropWhile isWsC)
          = renderPairsF (q :: ps') ++ '}' :: rest := by
        rw [List.dropWhile_cons, if_pos (by decide)]
        apply dropWhile_of_head _ '"' _ (by decide)
        rcases hq : renderPairsF (q :: ps') with _ | ⟨x, xs⟩
        · have := renderPairsF_head q ps'
          rw [hq] at this
          simp at this
        · have := renderPairsF_head q ps'
          rw [hq] at this
          simp only [List.head?_cons] at this ⊢
          exact this
      rw [hdrop2, ih f rest (by simp) hps (by omega) hrest]
      rfl

theorem renderPairsF_append_head (p : Str × FVal) (ps : FRec) (X : Str) :
    (renderPairsF (p :: ps) ++ X).head? = some '"' := by
  rcases hq : renderPairsF (p :: ps) with _ | ⟨x, xs⟩
  · have := renderPairsF_head p ps
    rw [hq] at this
    simp at this
  · have := renderPairsF_head p ps
    rw [hq] at this
    simpa using this

theorem renderItemsF_append_head (o : FRec) (os : List FRec) (X : Str) :
    (renderItemsF (o :: os) ++ X).head? = some '{' := by
  rcases hq : renderItemsF (o :: os) with _ | ⟨x, xs⟩
  · have := renderItemsF_head o os
    rw [hq] at this
    simp at this
  · have := renderItemsF_head o os
    rw [hq] at this
    simpa using this

/-- `parseVal` consumes a rendered nonempty object and returns its value. -/
theorem parseVal_renderRec (o : FRec) (fuel : Nat) (rest : Str)
    (ho : o ≠ []) (hgood : goodRecB o = true) (hfuel : costPairs o + 1 ≤ fuel)
    (hrest : restOk rest) :
    parseVal fuel (renderRec o ++ rest) = some (recToJ o, rest) := by
  obtain ⟨f, rfl⟩ : ∃ f, fuel = f + 1 := ⟨fuel - 1, by omega⟩
  have hshape : renderRec o ++ rest = '{' :: (renderPairsF o ++ '}' :: rest) := by
    show ('{' :: renderPairsF o ++ ['}']) ++ rest = _
    simp
  rw [hshape, parseVal_cons_eval f '{' _ (by decide),
    if_neg (by decide), if_neg (by decide), if_pos rfl]
  obtain ⟨p, ps, rfl⟩ : ∃ p ps, o = p :: ps := by
    cases o with
    | nil => exact absurd rfl ho
    | cons p ps => exact ⟨p, ps, rfl⟩
  have hdrop : (renderPairsF (p :: ps) ++ '}' :: rest).dropWhile isWsC
      = renderPairsF (p :: ps) ++ '}' :: rest :=
    dropWhile_of_head _ '"' (renderPairsF_append_head p ps _) (by decide)
  rw [hdrop, if_neg (by rw [renderPairsF_append_head p ps ('}' :: rest)]; decide),
    parseMembers1_render (p :: ps) f rest (by simp) hgood (by omega) hrest]
  rfl

/-- `parseElems1` consumes the rendered items of a nonempty array plus the
closing bracket. -/
theorem parseElems1_render (rs : List FRec) : ∀ (fuel : Nat) (rest : Str),
    rs ≠ [] → (∀ r ∈ rs, r ≠ []) → goodRecsB rs = true → costItems rs ≤ fuel →
    restOk rest →
    parseElems1 fuel (renderItemsF rs ++ ']' :: rest) = some (rs.map recToJ, rest) := by
  induction rs with
  | nil => intro fuel rest h; exact absurd rfl h
  | cons o os ih =>
    intro fuel rest _ hne hgood hfuel hrest
    obtain ⟨ho, hos⟩ := goodRecsB_head o os hgood
    obtain ⟨f, rfl⟩ : ∃ f, fuel = f + 1 := ⟨fuel - 1, by
      have : 3 + costPairs o + costItems os ≤ fuel := by simpa [costItems] using hfuel
      omega⟩
    have hfuel' : 3 + costPairs o + costItems os ≤ f + 1 := by
      simpa [costItems] using hfuel
    have honil : o ≠ [] := hne o (by simp)
    cases os with
    | nil =>
      show parseElems1 (f + 1) (renderRec o ++ ']' :: rest) = some ([recToJ o], rest)
      simp only [parseElems1]
      rw [parseVal_renderRec o f (']' :: rest) honil ho (by omega)
        (restOk_cons ']' rest (by decide) (by decide))]
      simp only []
      rw [dropWhile_cons_neg ']' (by decide), List.head?_cons,
        if_neg (by decide : ¬ (some ']' = some ',')), if_pos rfl, List.tail_cons]
    | cons p os' =>
      have hshape : renderItemsF (o :: p :: os') ++ ']' :: rest
          = renderRec o ++ (',' :: (' ' :: (renderItemsF (p :: os') ++ ']' :: rest))) := by
        show (renderRec o ++ ',' :: ' ' :: renderItemsF (p :: os')) ++ ']' :: rest = _
        simp
      rw [hshape]
      simp only [parseElems1]
      rw [parseVal_renderRec o f _ honil ho (by omega)
        (restOk_cons ',' _ (by decide) (by decide))]
      simp only []
      rw [dropWhile_cons_neg ',' (by decide), List.head?_cons, if_pos rfl, List.tail_cons]
      have hdrop2 : ((' ' :: (renderItemsF (p :: os') ++ ']' :: rest)).dropWhile isWsC)
          = renderItemsF (p :: os') ++ ']' :: rest := by
        rw [List.dropWhile_cons, if_pos (by decide)]
        exact dropWhile_of_head _ '{' (renderItemsF_append_head p os' _) (by decide)
      rw [hdrop2, ih f rest (by simp) (fun r hr => hne r (List.mem_cons_of_mem o hr))
        hos (by omega) hrest]
      rfl

/-- `parseVal` consumes a rendered nonempty array of nonempty records. -/
theorem parseVal_renderRecArr (rs : List FRec) (fuel : Nat) (rest : Str)
    (hrs : rs ≠ []) (hne : ∀ r ∈ rs, r ≠ []) (hgood : goodRecsB rs = true)
    (hfuel : costItems rs + 1 ≤ fuel) (hrest : restOk rest) :
    parseVal fuel (renderRecArr rs ++ rest) = some (.jarr (rs.map recToJ), rest) := by
  obtain ⟨f, rfl⟩ : ∃ f, fuel = f + 1 := ⟨fuel - 1, by omega⟩
  have hshape : renderRecArr rs ++ rest = '[' :: (renderItemsF rs ++ ']' :: rest) := by
    show ('[' :: renderItemsF rs ++ [']']) ++ rest = _
    simp
  rw [hshape, parseVal_cons_eval f '[' _ (by decide), if_neg (by decide), if_pos rfl]
  obtain ⟨o, os, rfl⟩ : ∃ o os, rs = o :: os := by
    cases rs with
    | nil => exact absurd rfl hrs
    | cons o os => exact ⟨o, os, rfl⟩
  have hdrop : (renderItemsF (o :: os) ++ ']' :: rest).dropWhile isWsC
      = renderItemsF (o :: os) ++ ']' :: rest :=
    dropWhile_of_head _ '{' (renderItemsF_append_head o os _) (by decide)
  rw [hdrop, if_neg (by rw [renderItemsF_append_head o os (']' :: rest)]; decide),
    parseElems1_render (o :: os) f rest hrs hne hgood (by omega) hrest]
  rfl

theorem renderPairF_length_pos (p : Str × FVal) : 1 ≤ (renderPairF p).length := by
  rcases h : renderPairF p with _ | ⟨x, xs⟩
  · have := renderPairF_head p
    rw [h] at this
    simp at this
  · simp

/-- The parser fuel needed for an object body is within a factor of the
rendered length. -/
theorem costPairs_le (o : FRec) : costPairs o ≤ 2 * (renderPairsF o).length + 1 := by
  induction o with
  | nil => simp [costPairs, renderPairsF]
  | cons p ps ih =>
    cases ps with
    | nil =>
      have h1 := renderPairF_length_pos p
      simp only [costPairs, renderPairsF]
      omega
    | cons q ps' =>
      simp only [costPairs] at ih ⊢
      have hsh : renderPairsF (p :: q :: ps')
          = renderPairF p ++ ',' :: ' ' :: renderPairsF (q :: ps') := rfl
      rw [hsh]
      simp only [List.length_append, List.length_cons]
      omega

/-- The parser fuel needed for array items is within a factor of the
rendered length. -/
theorem costItems_le (rs : List FRec) : costItems rs ≤ 2 * (renderItemsF rs).length + 1 := by
  induction rs with
  | nil => simp [costItems, renderItemsF]
  | cons o os ih =>
    cases os with
    | nil =>
      have h1 := costPairs_le o
      have hsh : renderItemsF [o] = renderRec o := rfl
      rw [hsh]
      simp only [costItems, renderRec, List.length_cons, List.length_append,
        List.length_singleton]
      omega
    | cons p os' =>
      have h1 := costPairs_le o
      simp only [costItems] at ih ⊢
      have hsh : renderItemsF (o :: p :: os')
          = renderRec o ++ ',' :: ' ' :: renderItemsF (p :: os') := rfl
      rw [hsh]
      simp only [renderRec, List.length_cons, List.length_append, List.length_singleton]
      omega

/-- `json.loads` of the canonical array dump recovers the logical array. -/
theorem parseJson_renderRecArr (rs : List FRec) (hrs : rs ≠ [])
    (hne : ∀ r ∈ rs, r ≠ []) (hgood : goodRecsB rs = true) :
    parseJson (renderRecArr rs) = some (.jarr (rs.map recToJ)) := by
  unfold parseJson
  have h := parseVal_renderRecArr rs (2 * (renderRecArr rs).length + 2) [] hrs hne hgood
    (by
      have h1 := costItems_le rs
      have h2 : (renderRecArr rs).length = (renderItemsF rs).length + 2 := by
        simp [renderRecArr]
      omega)
    restOk_nil
  rw [List.append_nil] at h
  rw [h]
  rfl

/-- `json.loads` of the canonical dump of a single nonempty object recovers
the object. -/
theorem parseJson_renderRec (o : FRec) (ho : o ≠ []) (hgood : goodRecB o = true) :
    parseJson (renderRec o) = some (recToJ o) := by
  unfold parseJson
  have h := parseVal_renderRec o (2 * (renderRec o).length + 2) [] ho hgood
    (by
      have h1 := costPairs_le o
      have h2 : (renderRec o).length = (renderPairsF o).length + 2 := by
        simp [renderRec]
      omega)
    restOk_nil
  rw [List.append_nil] at h
  rw [h]
  rfl

theorem findCh_head (s : Str) (t : Char) (h : s.head? = some t) : findCh s t = some 0 := by
  cases s with
  | nil => simp at h
  | cons c r =>
    simp only [List.head?_cons, Option.some_inj] at h
    subst h
    exact findCh_cons_self _ _

theorem pySlice_full (s : Str) : pySlice s 0 s.length = s := by
  simp [pySlice]

/-- The body of a multi-object array (as sliced out of a ```json fence) is
not itself valid JSON. -/
theorem parseJson_items_multi (o p : FRec) (os : List FRec)
    (ho : o ≠ []) (hgood : goodRecB o = true) :
    parseJson (renderItemsF (o :: p :: os)) = none := by
  unfold parseJson
  have hsh : renderItemsF (o :: p :: os)
      = renderRec o ++ ',' :: ' ' :: renderItemsF (p :: os) := rfl
  rw [hsh]
  have hf : costPairs o + 1
      ≤ 2 * (renderRec o ++ ',' :: ' ' :: renderItemsF (p :: os)).length + 2 := by
    have h1 := costPairs_le o
    have h2 : (renderRec o ++ ',' :: ' ' :: renderItemsF (p :: os)).length
        = (renderPairsF o).length + 4 + (renderItemsF (p :: os)).length := by
      simp only [renderRec, List.length_append, List.length_cons, List.length_singleton,
        List.length_nil]
      omega
    omega
  rw [parseVal_renderRec o _ _ ho hgood hf (restOk_cons ',' _ (by decide) (by decide))]
  simp only []
  rw [dropWhile_cons_neg ',' (by decide)]
  simp

theorem renderRecArr_head (rs : List FRec) : (renderRecArr rs).head? = some '[' := rfl

theorem renderRecArr_last (rs : List FRec) : (renderRecArr rs).getLast? = some ']' := by
  show (('[' :: renderItemsF rs) ++ [']']).getLast? = some ']'
  exact List.getLast?_concat _

theorem stripS_renderRecArr (rs : List FRec) : stripS (renderRecArr rs) = renderRecArr rs := by
  apply stripS_id
  · intro a ha
    rw [renderRecArr_head, Option.some_inj] at ha
    subst ha
    decide
  · intro b hb
    rw [renderRecArr_last, Option.some_inj] at hb
    subst hb
    decide

theorem cleanTrailingCommas_renderRecArr (rs : List FRec) (hgood : goodRecsB rs = true) :
    cleanTrailingCommas (renderRecArr rs) = renderRecArr rs :=
  cleanTrailingCommas_id _ (hazFree_renderRecArr rs hgood)
    (not_mem_of_ge32 _ (ge32_renderRecArr rs hgood) '\n' (by decide))

/-- The full recovery pipeline on the canonical array dump. -/
theorem parseCleaned_renderRecArr (rs : List FRec) (hrs : rs ≠ [])
    (hne : ∀ r ∈ rs, r ≠ []) (hgood : goodRecsB rs = true) :
    parseCleaned (renderRecArr rs) = some (rs.map recToJ) := by
  simp only [parseCleaned]
  rw [stripS_renderRecArr, cleanTrailingCommas_renderRecArr rs hgood,
    parseJson_renderRecArr rs hrs hne hgood]

theorem renderRec_head (o : FRec) : (renderRec o).head? = some '{' := rfl

theorem stripS_renderRec (o : FRec) : stripS (renderRec o) = renderRec o := by
  apply stripS_id
  · intro a ha
    rw [renderRec_head, Option.some_inj] at ha
    subst ha
    decide
  · intro b hb
    rw [renderRec_last, Option.some_inj] at hb
    subst hb
    decide

theorem cleanTrailingCommas_renderRec (o : FRec) (hgood : goodRecB o = true) :
    cleanTrailingCommas (renderRec o) = renderRec o :=
  cleanTrailingCommas_id _ (hazFree_renderRec o hgood)
    (not_mem_of_ge32 _ (ge32_renderRec o hgood) '\n' (by decide))

/-- The full recovery pipeline on the canonical dump of a bare nonempty
object: the object comes back wrapped in a one-element list. -/
theorem parseCleaned_renderRec (o : FRec) (ho : o ≠ []) (hgood : goodRecB o = true) :
    parseCleaned (renderRec o) = some [recToJ o] := by
  simp only [parseCleaned]
  rw [stripS_renderRec, cleanTrailingCommas_renderRec o hgood, parseJson_renderRec o ho hgood]
  rfl

theorem stripS_renderItemsF (rs : List FRec) (hrs : rs ≠ []) :
    stripS (renderItemsF rs) = renderItemsF rs := by
  obtain ⟨o, os, rfl⟩ : ∃ o os, rs = o :: os := by
    cases rs with
    | nil => exact absurd rfl hrs
    | cons o os => exact ⟨o, os, rfl⟩
  apply stripS_id
  · intro a ha
    rw [renderItemsF_head, Option.some_inj] at ha
    subst ha
    decide
  · intro b hb
    rw [renderItemsF_last _ hrs, Option.some_inj] at hb
    subst hb
    decide

theorem cleanTrailingCommas_renderItemsF (rs : List FRec) (hgood : goodRecsB rs = true) :
    cleanTrailingCommas (renderItemsF rs) = renderItemsF rs :=
  cleanTrailingCommas_id _ (hazFree_renderItemsF rs hgood)
    (not_mem_of_ge32 _ (ge32_renderItemsF rs hgood) '\n' (by decide))

/-- The full recovery pipeline on the fence-sliced body of the canonical
array dump (the items without the surrounding brackets): a single object
parses directly and is wrapped in a list; several objects fail `json.loads`
once and succeed on the retry that wraps the body in `[`…`]`. -/
theorem parseCleaned_renderItemsF (rs : List FRec) (hrs : rs ≠ [])
    (hne : ∀ r ∈ rs, r ≠ []) (hgood : goodRecsB rs = true) :
    parseCleaned (renderItemsF rs) = some (rs.map recToJ) := by
  obtain ⟨o, os, rfl⟩ : ∃ o os, rs = o :: os := by
    cases rs with
    | nil => exact absurd rfl hrs
    | cons o os => exact ⟨o, os, rfl⟩
  obtain ⟨hgo, hgos⟩ := goodRecsB_head o os hgood
  cases os with
  | nil =>
    show parseCleaned (renderRec o) = some [recToJ o]
    exact parseCleaned_renderRec o (hne o (by simp)) hgo
  | cons p os' =>
    simp only [parseCleaned]
    rw [stripS_renderItemsF _ hrs, cleanTrailingCommas_renderItemsF _ hgood,
      parseJson_items_multi o p os' (hne o (by simp)) hgo]
    simp only []
    rw [stripS_renderItemsF _ hrs, renderItemsF_head, if_pos ⟨rfl, by decide⟩]
    rw [show ('[' :: renderItemsF (o :: p :: os') ++ [']'] : Str)
        = renderRecArr (o :: p :: os') from rfl,
      parseJson_renderRecArr _ hrs hne hgood]

theorem fjTag_not_pfx (c : Char) (X : Str) (hc : c ≠ btick) :
    fjTag.isPrefixOf (c :: X) = false := by
  rw [Bool.eq_false_iff]
  intro h
  rw [List.isPrefixOf_iff_prefix,
    show fjTag = btick :: [btick, btick, 'j', 's', 'o', 'n'] from rfl] at h
  exact hc (List.cons_prefix_cons.mp h).1.symm

theorem tick3_not_pfx (c : Char) (X : Str) (hc : c ≠ btick) :
    tick3.isPrefixOf (c :: X) = false := by
  rw [Bool.eq_false_iff]
  intro h
  rw [List.isPrefixOf_iff_prefix,
    show tick3 = btick :: [btick, btick] from rfl] at h
  exact hc (List.cons_prefix_cons.mp h).1.symm

theorem fjTag_not_pfx_tick3nl (X : Str) :
    fjTag.isPrefixOf (tick3 ++ '\n' :: X) = false := by
  rw [Bool.eq_false_iff]
  intro h
  rw [List.isPrefixOf_iff_prefix] at h
  have h2 : ('j' :: ['s', 'o', 'n'] : Str) <+: '\n' :: X := by
    rw [show fjTag = btick :: btick :: btick :: 'j' :: ['s', 'o', 'n'] from rfl,
      show (tick3 ++ '\n' :: X : Str) = btick :: btick :: btick :: '\n' :: X from rfl] at h
    exact (List.cons_prefix_cons.mp
      ((List.cons_prefix_cons.mp ((List.cons_prefix_cons.mp h).2)).2)).2
  exact absurd (List.cons_prefix_cons.mp h2).1 (by decide)

/-- On input whose first character is not a backtick, the fence checks fail
and the recovery falls through to the bracket slice. -/
theorem stripFences_no_fence (c : Char) (X : Str) (hc : c ≠ btick) :
    stripFences (c :: X) = sliceBrackets (c :: X) := by
  unfold stripFences
  rw [if_neg (by simp [fjTag_not_pfx c X hc]), if_neg (by simp [tick3_not_pfx c X hc])]

/-- The bracket slice leaves the canonical dump of a bare object intact. -/
theorem sliceBrackets_renderRec (o : FRec) : sliceBrackets (renderRec o) = renderRec o := by
  have hfc : findCh (renderRec o) '{' = some 0 := findCh_head _ '{' (renderRec_head o)
  have hrb : rfindCh (renderRec o) '}' = some (1 + (renderPairsF o).length) := by
    have h : rfindCh (renderRec o) '}' = some (('{' :: renderPairsF o : Str)).length :=
      rfindCh_concat_self '}' ('{' :: renderPairsF o)
    rw [h]
    simp only [List.length_cons, Option.some_inj]
    omega
  have hlen : (renderRec o).length = (renderPairsF o).length + 2 := by
    simp only [renderRec, List.length_cons, List.length_append, List.length_singleton,
      List.length_nil]
  have hz : (rfindCh (renderRec o) ']').getD 0 ≤ 1 + (renderPairsF o).length := by
    cases h : rfindCh (renderRec o) ']' with
    | none => simp
    | some i =>
      have hi := rfindCh_lt_length ']' _ i h
      rw [hlen] at hi
      simp only [Option.getD_some]
      omega
  unfold sliceBrackets
  simp only []
  rw [hfc, hrb]
  simp only [Option.getD_some]
  rw [Nat.min_eq_right (Nat.zero_le _),
    if_pos (show 0 < (renderRec o).length by rw [hlen]; omega),
    Nat.max_eq_right hz, if_pos (by omega)]
  rw [show 1 + (renderPairsF o).length + 1 = (renderRec o).length by rw [hlen]; omega,
    pySlice_full]

/-- The bracket slice cuts leading prose (containing no brackets) off the
canonical array dump. -/
theorem sliceBrackets_prose (prose : Str) (rs : List FRec)
    (hlb : '[' ∉ prose) (hlc : '{' ∉ prose) (hrs : rs ≠ []) :
    sliceBrackets (prose ++ renderRecArr rs) = renderRecArr rs := by
  obtain ⟨o, os, rfl⟩ : ∃ o os, rs = o :: os := by
    cases rs with
    | nil => exact absurd rfl hrs
    | cons o os => exact ⟨o, os, rfl⟩
  have hfo : findCh (prose ++ renderRecArr (o :: os)) '[' = some prose.length := by
    have h := findCh_middle_head '[' prose (renderRecArr (o :: os)) [] hlb (renderRecArr_head _)
    rwa [List.append_nil] at h
  have hfc : findCh (prose ++ renderRecArr (o :: os)) '{' = some (prose.length + 1) := by
    rw [show prose ++ renderRecArr (o :: os)
        = (prose ++ ['[']) ++ renderItemsF (o :: os) ++ [']'] from by simp [renderRecArr],
      findCh_middle_head '{' (prose ++ ['[']) (renderItemsF (o :: os)) [']']
        (by
          rw [List.mem_append]
          rintro (h | h)
          · exact hlc h
          · simp at h)
        (renderItemsF_head o os)]
    simp
  have hrb : rfindCh (prose ++ renderRecArr (o :: os)) ']'
      = some (prose.length + 1 + (renderItemsF (o :: os)).length) := by
    rw [show prose ++ renderRecArr (o :: os)
        = (prose ++ '[' :: renderItemsF (o :: os)) ++ [']'] from by simp [renderRecArr],
      rfindCh_concat_self]
    simp only [List.length_append, List.length_cons, Option.some_inj]
    omega
  have hlen : (prose ++ renderRecArr (o :: os)).length
      = prose.length + (renderItemsF (o :: os)).length + 2 := by
    simp only [List.length_append, renderRecArr, List.length_cons, List.length_singleton,
      List.length_nil]
    omega
  have hz : (rfindCh (prose ++ renderRecArr (o :: os)) '}').getD 0
      ≤ prose.length + 1 + (renderItemsF (o :: os)).length := by
    cases h : rfindCh (prose ++ renderRecArr (o :: os)) '}' with
    | none => simp
    | some i =>
      have hi := rfindCh_lt_length '}' _ i h
      rw [hlen] at hi
      simp only [Option.getD_some]
      omega
  unfold sliceBrackets
  simp only []
  rw [hfo, hfc, hrb]
  simp only [Option.getD_some]
  rw [Nat.min_eq_left (by omega), if_pos (by rw [hlen]; omega),
    Nat.max_eq_left hz, if_pos (by omega)]
  rw [show prose.length + 1 + (renderItemsF (o :: os)).length + 1
      = prose.length + (renderRecArr (o :: os)).length from by
    simp only [renderRecArr, List.length_cons, List.length_append, List.length_singleton,
      List.length_nil]
    omega]
  have h := pySlice_middle prose (renderRecArr (o :: os)) []
  rwa [List.append_nil] at h

theorem stripFences_prose (prose : Str) (rs : List FRec) (hbp : btick ∉ prose)
    (hlb : '[' ∉ prose) (hlc : '{' ∉ prose) (hrs : rs ≠ []) :
    stripFences (prose ++ renderRecArr rs) = renderRecArr rs := by
  have hsl := sliceBrackets_prose prose rs hlb hlc hrs
  cases prose with
  | nil =>
    rw [List.nil_append] at hsl ⊢
    have h2 : stripFences (renderRecArr rs) = sliceBrackets (renderRecArr rs) :=
      stripFences_no_fence '[' (renderItemsF rs ++ [']']) (by decide)
    rw [h2, hsl]
  | cons c pr =>
    have hc : c ≠ btick := fun h => hbp (h ▸ List.mem_cons_self c pr)
    have h2 : stripFences ((c :: pr) ++ renderRecArr rs)
        = sliceBrackets ((c :: pr) ++ renderRecArr rs) :=
      stripFences_no_fence c (pr ++ renderRecArr rs) hc
    rw [h2, hsl]

theorem stripFences_renderRec (o : FRec) : stripFences (renderRec o) = renderRec o := by
  have h2 : stripFences (renderRec o) = sliceBrackets (renderRec o) :=
    stripFences_no_fence '{' (renderPairsF o ++ ['}']) (by decide)
  rw [h2, sliceBrackets_renderRec]

/-- The ```json fence branch slices from the first `\x7b` to the last `\x7d`,
i.e. it strips the array brackets along with the fence. -/
theorem stripFences_wrapJsonFence (rs : List FRec) (hrs : rs ≠ []) :
    stripFences (wrapJsonFence (renderRecArr rs)) = renderItemsF rs := by
  obtain ⟨o, os, rfl⟩ : ∃ o os, rs = o :: os := by
    cases rs with
    | nil => exact absurd rfl hrs
    | cons o os => exact ⟨o, os, rfl⟩
  have hLi : 1 ≤ (renderItemsF (o :: os)).length := by
    rcases hq : renderItemsF (o :: os) with _ | ⟨x, xs⟩
    · have := renderItemsF_head o os
      rw [hq] at this
      simp at this
    · simp
  have hshape : wrapJsonFence (renderRecArr (o :: os))
      = (fjTag ++ ['\n', '[']) ++ renderItemsF (o :: os) ++ (']' :: '\n' :: tick3) := by
    show fjTag ++ '\n' :: (('[' :: renderItemsF (o :: os)) ++ [']']) ++ '\n' :: tick3 = _
    simp
  rw [hshape]
  unfold stripFences
  rw [if_pos (by
    rw [List.isPrefixOf_iff_prefix]
    simp only [List.append_assoc]
    exact List.prefix_append _ _)]
  rw [findCh_middle_head '{' (fjTag ++ ['\n', '[']) (renderItemsF (o :: os))
      (']' :: '\n' :: tick3) (by decide) (renderItemsF_head o os),
    rfindCh_middle_last '}' (fjTag ++ ['\n', '[']) (renderItemsF (o :: os))
      (']' :: '\n' :: tick3) (by decide) (renderItemsF_last _ (by simp))]
  simp only []
  rw [show (fjTag ++ ['\n', '[']).length + (renderItemsF (o :: os)).length - 1 + 1
      = (fjTag ++ ['\n', '[']).length + (renderItemsF (o :: os)).length from by omega]
  exact pySlice_middle _ _ _

/-- The generic triple-fence branch drops the first and last line. -/
theorem stripFences_wrapGenFence (r : Str) (hnl : '\n' ∉ r) :
    stripFences (wrapGenFence r) = r := by
  have h1 : fjTag.isPrefixOf (wrapGenFence r) = false :=
    fjTag_not_pfx_tick3nl (r ++ '\n' :: tick3)
  have h2 : tick3.isPrefixOf (wrapGenFence r) = true := by
    rw [List.isPrefixOf_iff_prefix]
    exact List.prefix_append _ _
  have h3 : tick3.isSuffixOf (wrapGenFence r) = true := by
    rw [List.isSuffixOf_iff_suffix]
    have h : wrapGenFence r = (tick3 ++ ('\n' :: (r ++ ['\n']))) ++ tick3 := by
      show tick3 ++ '\n' :: r ++ '\n' :: tick3 = _
      simp
    rw [h]
    exact List.suffix_append _ _
  have hsplit : splitNl (wrapGenFence r) = [tick3, r, tick3] := by
    show splitNl (tick3 ++ '\n' :: (r ++ '\n' :: tick3)) = _
    rw [splitNl_append tick3 _ (by decide), splitNl_append r _ hnl,
      splitNl_of_not_mem tick3 (by decide)]
  unfold stripFences
  rw [if_neg (by simp [h1]), if_pos ⟨h2, h3⟩]
  simp only []
  rw [hsplit, if_pos (by simp)]
  rfl

/-- A canonical array whose string value contains the substring `,]`: the
trailing-comma cleanup corrupts it, refuting the unrestricted round-trip. -/
def exBad : List FRec := [[(['a'], FVal.fstr [',', ']'])]]

/-- **C8 counterexample**: for the canonical one-record array
`[\x7b"a": ",]"\x7d]` the normalization routine does not return the
original logical array (neither bare nor inside a ```json fence): the
`replace(",]", "]")` cleanup rewrites the string value `",]"` to `"]"`. -/
theorem c8_counterexample :
    exBad ≠ [] ∧ (∀ r ∈ exBad, r ≠ []) ∧ goodRecsB exBad = false ∧
    extract_json_image (renderRecArr exBad) ≠ some (exBad.map recToJ) ∧
    extract_json_image (wrapJsonFence (renderRecArr exBad)) ≠ some (exBad.map recToJ) := by
  decide

/-- **C8** (corrected): round-trip of normalization.  For every nonempty
canonical JSON array of nonempty flat records whose string fields contain
no control characters and no `,` immediately followed by `]` or `\x7d`
(`goodRecsB`), feeding `extract_json_image` the canonical dump prefixed
with bracket-free prose, wrapped in a ```json fence, or wrapped in generic
triple fences yields the same logical array as parsing the unwrapped dump,
and a bare single object yields the one-element array containing it.  The
unrestricted claim is refuted by `c8_counterexample`: the trailing-comma
cleanup `replace(",]", "]")`/`replace(",\x7d", "\x7d")` corrupts string
values containing those substrings. -/
theorem c8_normalize_round_trip (rs : List FRec) (o : FRec) (prose : Str)
    (hrs : rs ≠ []) (hne : ∀ r ∈ rs, r ≠ []) (hgood : goodRecsB rs = true)
    (ho : o ≠ []) (hogood : goodRecB o = true)
    (hbp : btick ∉ prose) (hlb : '[' ∉ prose) (hlc : '{' ∉ prose) :
    extract_json_image (prose ++ renderRecArr rs) = some (rs.map recToJ)
    ∧ extract_json_image (wrapJsonFence (renderRecArr rs)) = some (rs.map recToJ)
    ∧ extract_json_image (wrapGenFence (renderRecArr rs)) = some (rs.map recToJ)
    ∧ extract_json_image (renderRec o) = some [recToJ o] := by
  have hnl : '\n' ∉ renderRecArr rs :=
    not_mem_of_ge32 _ (ge32_renderRecArr rs hgood) '\n' (by decide)
  refine ⟨?_, ?_, ?_, ?_⟩
  · show parseCleaned (stripFences (prose ++ renderRecArr rs)) = _
    rw [stripFences_prose prose rs hbp hlb hlc hrs,
      parseCleaned_renderRecArr rs hrs hne hgood]
  · show parseCleaned (stripFences (wrapJsonFence (renderRecArr rs))) = _
    rw [stripFences_wrapJsonFence rs hrs, parseCleaned_renderItemsF rs hrs hne hgood]
  · show parseCleaned (stripFences (wrapGenFence (renderRecArr rs))) = _
    rw [stripFences_wrapGenFence _ hnl, parseCleaned_renderRecArr rs hrs hne hgood]
  · show parseCleaned (stripFences (renderRec o)) = _
    rw [stripFences_renderRec, parseCleaned_renderRec o ho hogood]

/-- Witness for `c8_normalize_round_trip` at a concrete two-record array,
a concrete object and concrete prose. -/
theorem c8_witness :
    extract_json_image ((['O', 'K', ':', ' '] : Str)
        ++ renderRecArr [[(['a'], FVal.fnum 12)], [(['b'], FVal.fstr ['x', 'y'])]])
      = some ([[(['a'], FVal.fnum 12)], [(['b'], FVal.fstr ['x', 'y'])]].map recToJ)
    ∧ extract_json_image (wrapJsonFence
        (renderRecArr [[(['a'], FVal.fnum 12)], [(['b'], FVal.fstr ['x', 'y'])]]))
      = some ([[(['a'], FVal.fnum 12)], [(['b'], FVal.fstr ['x', 'y'])]].map recToJ)
    ∧ extract_json_image (wrapGenFence
        (renderRecArr [[(['a'], FVal.fnum 12)], [(['b'], FVal.fstr ['x', 'y'])]]))
      = some ([[(['a'], FVal.fnum 12)], [(['b'], FVal.fstr ['x', 'y'])]].map recToJ)
    ∧ extract_json_image (renderRec [(['k'], FVal.fnum 7)])
      = some [recToJ [(['k'], FVal.fnum 7)]] :=
  c8_normalize_round_trip
    [[(['a'], FVal.fnum 12)], [(['b'], FVal.fstr ['x', 'y'])]]
    [(['k'], FVal.fnum 7)] ['O', 'K', ':', ' ']
    (by decide) (by decide) (by decide) (by decide) (by decide)
    (by decide) (by decide) (by decide)
